import Mathlib

/-!
# gostale: annotation extraction and staleness classification

Shallow embedding of `cmd/gostale/main.go` together with the fragment of the Go
standard library it relies on (`time`, `regexp`, `strings`, `go/ast`).

Conventions of the embedding

* Text that the program inspects (comment text, date strings, messages) is a
  `List Char`; names that are only passed around (paths, identifiers) are `String`.
* `time.Time` is an instant, counted in nanoseconds from Go's zero time
  (1 January of year 1, 00:00:00 UTC).  The count is an unbounded `Int`;
  the wrap-around of Go's 64-bit second counter (beyond ±292 billion years) is
  outside the model.
* `*slog.Logger` calls are collected as a list of records, in call order.
-/

namespace Gostale

/-! ## package time -/

/-- Go `time.Time`: nanoseconds since 0001-01-01T00:00:00Z. -/
structure Time where
  ns : Int
deriving DecidableEq, Repr

def nsPerSecond : Int := 1000000000

def nsPerDay : Int := 86400000000000

/-- Go `Time.Before`: strictly earlier instant. -/
def Time.Before (t u : Time) : Bool := decide (t.ns < u.ns)

/-- Go `Time.After`: strictly later instant. -/
def Time.After (t u : Time) : Bool := decide (t.ns > u.ns)

/-- Go `time.isLeap`. -/
def isLeap (year : Int) : Bool :=
  year % 4 = 0 && (year % 100 != 0 || year % 400 = 0)

/-- Go `time.daysBefore`: days in a non-leap year before month `m + 1` starts
(index 0 is January), with the closing entry 365. -/
def daysBefore (m : Int) : Int :=
  if m = 0 then 0
  else if m = 1 then 31
  else if m = 2 then 59
  else if m = 3 then 90
  else if m = 4 then 120
  else if m = 5 then 151
  else if m = 6 then 181
  else if m = 7 then 212
  else if m = 8 then 243
  else if m = 9 then 273
  else if m = 10 then 304
  else if m = 11 then 334
  else 365

/-- Go `time.daysIn`. -/
def daysIn (m : Int) (year : Int) : Int :=
  if m = 2 && isLeap year then 29 else daysBefore m - daysBefore (m - 1)

/-- Go `time.norm`: carry `lo` into `hi` so that `0 ≤ lo < base`. -/
def norm (hi lo base : Int) : Int × Int :=
  let (hi, lo) :=
    if lo < 0 then
      let n := (-lo - 1) / base + 1
      (hi - n, lo + n * base)
    else (hi, lo)
  if lo ≥ base then
    let n := lo / base
    (hi + n, lo - n * base)
  else (hi, lo)

/-- Go `time.daysSinceEpoch`, with the epoch moved to year 1 (Go's absolute
zero year is congruent to 1 modulo 400, so the cycle arithmetic is the same). -/
def daysSinceEpoch (year : Int) : Int :=
  let y := year - 1
  let n := y / 400
  let y := y - 400 * n
  let d := 146097 * n
  let n := y / 100
  let y := y - 100 * n
  let d := d + 36524 * n
  let n := y / 4
  let y := y - 4 * n
  let d := d + 1461 * n
  d + 365 * y

/-- Result of Go `absDate`. -/
structure Civil where
  year : Int
  month : Int
  day : Int
deriving DecidableEq, Repr

/-- First half of Go `time.absDate`: the year and the zero-based day of the
year of a day count (days since 0001-01-01). -/
def absYearDay (days : Int) : Int × Int :=
  let d := days
  let n := d / 146097
  let y := 400 * n
  let d := d - 146097 * n
  let n := d / 36524
  let n := n - n / 4
  let y := y + 100 * n
  let d := d - 36524 * n
  let n := d / 1461
  let y := y + 4 * n
  let d := d - 1461 * n
  let n := d / 365
  let n := n - n / 4
  let y := y + n
  let d := d - 365 * n
  (y + 1, d)

/-- Second half of Go `time.absDate`: month and day of the month from the
zero-based day of the year. -/
def absMonthDay (year yday : Int) : Civil :=
  if isLeap year && yday = 31 + 29 - 1 then
    ⟨year, 2, 29⟩
  else
    let day := if isLeap year && yday > 31 + 29 - 1 then yday - 1 else yday
    let month := day / 31
    let e := daysBefore (month + 1)
    if day ≥ e then
      ⟨year, month + 1 + 1, day - e + 1⟩
    else
      ⟨year, month + 1, day - daysBefore month + 1⟩

/-- Go `time.absDate` on a day count (days since 0001-01-01). -/
def absDate (days : Int) : Civil :=
  let (year, yday) := absYearDay days
  absMonthDay year yday

/-- Go `time.Date` in UTC.  Out-of-range fields are normalised by carrying. -/
def Date (year month day hour min sec nsec : Int) : Time :=
  let m := month - 1
  let (year, m) := norm year m 12
  let month := m + 1
  let (sec, nsec) := norm sec nsec 1000000000
  let (min, sec) := norm min sec 60
  let (hour, min) := norm hour min 60
  let (day, hour) := norm day hour 24
  let d := daysSinceEpoch year
  let d := d + daysBefore (month - 1)
  let d := if isLeap year && month ≥ 3 then d + 1 else d
  let d := d + (day - 1)
  let abs := d * 86400
  let abs := abs + (hour * 3600 + min * 60 + sec)
  ⟨abs * 1000000000 + nsec⟩

/-- Go `Time.Date()`: the civil date on which the instant falls (UTC). -/
def Time.date (t : Time) : Civil := absDate (t.ns / nsPerDay)

/-- Go `Time.Clock()` together with `Time.Nanosecond()`. -/
def Time.clock (t : Time) : Int × Int × Int × Int :=
  let r := t.ns % nsPerDay
  let s := r / nsPerSecond
  (s / 3600, s % 3600 / 60, s % 60, r % nsPerSecond)

/-- Go `Time.AddDate`. -/
def Time.AddDate (t : Time) (years months days : Int) : Time :=
  let c := t.date
  let (hour, min, sec, nsec) := t.clock
  Date (c.year + years) (c.month + months) (c.day + days) hour min sec nsec

/-- The day count of a civil date, as `Date` computes it. -/
def civilDays (c : Civil) : Int :=
  daysSinceEpoch c.year + daysBefore (c.month - 1)
    + (if isLeap c.year && c.month ≥ 3 then 1 else 0) + (c.day - 1)


/-- Month and day computed by `absMonthDay`, with the leap flag as an argument. -/
def monthDayCore (leap : Bool) (yday : Int) : Int × Int :=
  if leap && yday = 31 + 29 - 1 then (2, 29)
  else
    let day := if leap && yday > 31 + 29 - 1 then yday - 1 else yday
    let month := day / 31
    let e := daysBefore (month + 1)
    if day ≥ e then (month + 1 + 1, day - e + 1)
    else (month + 1, day - daysBefore month + 1)


/-! ### Layouts, `time.Parse` and `Time.Format`

A layout string is represented by the sequence of chunks into which Go's
`nextStdChunk` cuts it.  The calendar-date elements are modelled; a layout
made of other elements (clock, zone, names of months or weekdays) has no
representation. -/

/-- One chunk of a layout. -/
inductive Chunk where
  /-- literal text between two layout elements -/
  | lit (s : List Char)
  /-- the element `2006` -/
  | stdLongYear
  /-- the element `01` -/
  | stdZeroMonth
  /-- the element `1` -/
  | stdNumMonth
  /-- the element `02` -/
  | stdZeroDay
  /-- the element `2` -/
  | stdDay
deriving DecidableEq, Repr

abbrev Layout := List Chunk

/-- The layout `"02-01-2006"`. -/
def layoutDMY : Layout :=
  [.stdZeroDay, .lit ['-'], .stdZeroMonth, .lit ['-'], .stdLongYear]

/-- The layout `"2006-01-02"`. -/
def layoutYMD : Layout :=
  [.stdLongYear, .lit ['-'], .stdZeroMonth, .lit ['-'], .stdZeroDay]

/-- The ways in which `time.Parse` rejects its input. -/
inductive ParseError where
  | bad
  | monthOutOfRange
  | dayOutOfRange
  | extraText
deriving DecidableEq, Repr

deriving instance DecidableEq for Except

/-- Byte test `'0' <= c <= '9'` used by `time.isDigit` (and RE2's `\d`). -/
def isDigit (c : Char) : Bool := decide (48 ≤ c.toNat) && decide (c.toNat ≤ 57)

/-- The value `c - '0'`. -/
def digitVal (c : Char) : Int := (c.toNat : Int) - 48

/-- Go `time.cutspace`: drop the leading spaces. -/
def cutspace (s : List Char) : List Char := s.dropWhile (fun c => c == ' ')

/-- Loop of Go `time.skip`.  A space of `pfx` demands that `value` is empty or
starts with a space, and then the whole run of spaces is cut from both;
`inRun` records that the current run of spaces of `pfx` has been dealt with. -/
def skipLoop (inRun : Bool) (value pfx : List Char) : Option (List Char) :=
  match pfx with
  | [] => some value
  | c :: p =>
    if c = ' ' then
      if inRun then skipLoop true value p
      else
        match value with
        | [] => skipLoop true [] p
        | v :: vs => if v = ' ' then skipLoop true (cutspace vs) p else none
    else
      match value with
      | [] => none
      | v :: vs => if v = c then skipLoop false vs p else none

/-- Go `time.skip`: remove `pfx` from the front of `value`; a run of spaces
in `pfx` matches zero or more spaces. -/
def skip (value pfx : List Char) : Option (List Char) := skipLoop false value pfx

/-- Go `time.getnum`: a one- or two-digit number; `fixed` demands two digits. -/
def getnum (s : List Char) (fixed : Bool) : Except ParseError (Int × List Char) :=
  match s with
  | [] => .error .bad
  | [a] =>
    if !isDigit a then .error .bad
    else if fixed then .error .bad
    else .ok (digitVal a, [])
  | a :: b :: r =>
    if !isDigit a then .error .bad
    else if !isDigit b then
      if fixed then .error .bad else .ok (digitVal a, b :: r)
    else .ok (digitVal a * 10 + digitVal b, r)

/-- Go `time.leadingInt`: consume the leading decimal digits. -/
def leadingInt (acc : Int) : List Char → Int × List Char
  | [] => (acc, [])
  | c :: r => if isDigit c then leadingInt (acc * 10 + digitVal c) r else (acc, c :: r)

/-- Go `time.atoi`. -/
def atoi (s : List Char) : Except ParseError Int :=
  let (neg, s) :=
    match s with
    | '-' :: r => (true, r)
    | '+' :: r => (false, r)
    | _ => (false, s)
  let (q, rem) := leadingInt 0 s
  if rem ≠ [] then .error .bad
  else .ok (if neg then -q else q)

/-- Fields collected by `time.Parse` while it walks the layout. -/
structure ParseState where
  year : Int := 0
  month : Int := -1
  day : Int := -1
deriving DecidableEq, Repr

/-- The loop of `time.Parse`: match `value` against the layout, chunk by chunk. -/
def parseChunks (layout : Layout) (value : List Char) (st : ParseState) :
    Except ParseError ParseState :=
  match layout with
  | [] => if value ≠ [] then .error .extraText else .ok st
  | .lit s :: rest =>
    match skip value s with
    | none => .error .bad
    | some value => parseChunks rest value st
  | .stdLongYear :: rest =>
    match value with
    | a :: b :: c :: d :: value =>
      if !isDigit a then .error .bad
      else
        match atoi [a, b, c, d] with
        | .error e => .error e
        | .ok year => parseChunks rest value { st with year := year }
    | _ => .error .bad
  | .stdZeroMonth :: rest =>
    match getnum value true with
    | .error e => .error e
    | .ok (month, value) =>
      if month ≤ 0 || 12 < month then .error .monthOutOfRange
      else parseChunks rest value { st with month := month }
  | .stdNumMonth :: rest =>
    match getnum value false with
    | .error e => .error e
    | .ok (month, value) =>
      if month ≤ 0 || 12 < month then .error .monthOutOfRange
      else parseChunks rest value { st with month := month }
  | .stdZeroDay :: rest =>
    match getnum value true with
    | .error e => .error e
    | .ok (day, value) => parseChunks rest value { st with day := day }
  | .stdDay :: rest =>
    match getnum value false with
    | .error e => .error e
    | .ok (day, value) => parseChunks rest value { st with day := day }

/-- Go `time.Parse` for a date layout: the instant is midnight UTC of the
parsed day. -/
def Parse (layout : Layout) (value : List Char) : Except ParseError Time :=
  match parseChunks layout value {} with
  | .error e => .error e
  | .ok st =>
    let month := if st.month < 0 then 1 else st.month
    let day := if st.day < 0 then 1 else st.day
    if day < 1 || day > daysIn month st.year then .error .dayOutOfRange
    else .ok (Date st.year month day 0 0 0 0)

/-- Decimal digit as a character (`'0' + byte(u)`). -/
def utod (u : Nat) : Char := Char.ofNat (48 + u)

/-- Go `time.appendInt`: decimal text of `x`, zero-padded to `width`. -/
def appendInt (x : Int) (width : Nat) : List Char :=
  let u := x.natAbs
  let sign := if x < 0 then ['-'] else []
  if width = 2 ∧ u < 100 then
    sign ++ [utod (u / 10), utod (u % 10)]
  else if width = 4 ∧ u < 10000 then
    sign ++ [utod (u / 1000), utod (u / 100 % 10), utod (u / 10 % 10), utod (u % 10)]
  else
    let ds := Nat.toDigits 10 u
    sign ++ List.replicate (width - ds.length) '0' ++ ds

/-- The text `Time.Format` produces for a civil date under a layout. -/
def formatCivil (layout : Layout) (c : Civil) : List Char :=
  match layout with
  | [] => []
  | .lit s :: rest => s ++ formatCivil rest c
  | .stdLongYear :: rest => appendInt c.year 4 ++ formatCivil rest c
  | .stdZeroMonth :: rest => appendInt c.month 2 ++ formatCivil rest c
  | .stdNumMonth :: rest => appendInt c.month 0 ++ formatCivil rest c
  | .stdZeroDay :: rest => appendInt c.day 2 ++ formatCivil rest c
  | .stdDay :: rest => appendInt c.day 0 ++ formatCivil rest c

/-- Go `Time.Format` (UTC) for a date layout. -/
def Time.Format (t : Time) (layout : Layout) : List Char := formatCivil layout t.date

/-! ## package strings -/

/-- Go `unicode.IsSpace`. -/
def isSpace (c : Char) : Bool :=
  let n := c.toNat
  (decide (9 ≤ n) && decide (n ≤ 13)) || n = 32 || n = 133 || n = 160 || n = 5760
    || (decide (8192 ≤ n) && decide (n ≤ 8202)) || n = 8232 || n = 8233 || n = 8239
    || n = 8287 || n = 12288

/-- Go `strings.TrimSpace`. -/
def TrimSpace (s : List Char) : List Char :=
  ((s.dropWhile isSpace).reverse.dropWhile isSpace).reverse

/-! ## package regexp

The marker pattern of `scanFile`,

    (?i)//\s*(todo|fixme)(\([^)]*\))?:\s*stale:\s*(\d{2}-\d{2}-\d{4})
        (?:\s+expires:\s*(\d{2}-\d{2}-\d{4}))?(?:\s+(.*))?

is embedded as a matcher written along the pattern, piece by piece.  Go's
engine returns the leftmost match and, at a start position, prefers the
greedy choice at every repetition and option.  Every repetition of the pattern
is followed by a piece that cannot start with a character of the repeated
class (`\s*` by a letter or a digit, `[^)]*` by `)`), so consuming the longest
run is the only choice that can succeed; the two options at the end are
followed by nothing that can fail, so their first choice stands. -/

/-- RE2 `\s`: `[\t\n\f\r ]`. -/
def isReSpace (c : Char) : Bool :=
  c = '\t' || c = '\n' || c = Char.ofNat 12 || c = '\r' || c = ' '

/-- One pattern letter under `(?i)`: the letter, its upper case, and the other
members of its simple case-folding orbit (`ſ` U+017F for `s`, the Kelvin sign
U+212A for `k`). -/
def foldMatch (p c : Char) : Bool :=
  c = p || c = p.toUpper || (p = 's' && c = Char.ofNat 383) || (p = 'k' && c = Char.ofNat 8490)

/-- A literal under `(?i)`: the matched text and what follows it. -/
def litI (pat s : List Char) : Option (List Char × List Char) :=
  match pat, s with
  | [], s => some ([], s)
  | _ :: _, [] => none
  | p :: ps, c :: cs =>
    if foldMatch p c then
      match litI ps cs with
      | some (m, r) => some (c :: m, r)
      | none => none
    else none

/-- The piece `\d{2}-\d{2}-\d{4}`: the date text and what follows it. -/
def reDate (s : List Char) : Option (List Char × List Char) :=
  match s with
  | a :: b :: h :: c :: d :: i :: e :: f :: g :: j :: r =>
    if isDigit a && isDigit b && h = '-' && isDigit c && isDigit d && i = '-'
        && isDigit e && isDigit f && isDigit g && isDigit j then
      some ([a, b, h, c, d, i, e, f, g, j], r)
    else none
  | _ => none

/-- Submatches of the marker pattern; an unmatched group is the empty text.
(`match[0]`, the whole match, is not used by `scanFile` and is left out.) -/
structure Submatch where
  /-- `match[1]`: `(todo|fixme)` -/
  kind : List Char
  /-- `match[2]`: `(\([^)]*\))?` -/
  tag : List Char
  /-- `match[3]`: the date after `stale:` -/
  warn : List Char
  /-- `match[4]`: the date after `expires:` -/
  expires : List Char
  /-- `match[5]`: `(.*)` -/
  message : List Char
deriving DecidableEq, Repr

/-- The piece `(todo|fixme)`: the keyword as written and what follows it.  The
two alternatives start with different letters, so at most one of them matches. -/
def reKind (s : List Char) : Option (List Char × List Char) :=
  match litI ['t', 'o', 'd', 'o'] s with
  | some r => some r
  | none => litI ['f', 'i', 'x', 'm', 'e'] s

/-- The piece `\([^)]*\)`: the tag with its parentheses and what follows it. -/
def reTag (s : List Char) : Option (List Char × List Char) :=
  match s with
  | '(' :: r =>
    match r.dropWhile (fun c => c != ')') with
    | ')' :: r2 => some ('(' :: r.takeWhile (fun c => c != ')') ++ [')'], r2)
    | _ => none
  | _ => none

/-- The piece `\s+expires:\s*(\d{2}-\d{2}-\d{4})`: group 4 and what follows it. -/
def reExpires (s : List Char) : Option (List Char × List Char) :=
  match s with
  | [] => none
  | c :: cs =>
    if isReSpace c then
      match litI ['e', 'x', 'p', 'i', 'r', 'e', 's', ':'] (cs.dropWhile isReSpace) with
      | some (_, r) => reDate (r.dropWhile isReSpace)
      | none => none
    else none

/-- The piece `(?:\s+(.*))?` at the end of the pattern: group 5.  `.` stops at
a newline. -/
def reMessage (s : List Char) : List Char :=
  match s with
  | [] => []
  | c :: cs =>
    if isReSpace c then (cs.dropWhile isReSpace).takeWhile (fun c => c != '\n')
    else []

/-- The pattern from `:` on, with groups 1 and 2 already fixed. -/
def reAfterTag (kind tag s : List Char) : Option Submatch :=
  match s with
  | ':' :: r =>
    match litI ['s', 't', 'a', 'l', 'e', ':'] (r.dropWhile isReSpace) with
    | some (_, r) =>
      match reDate (r.dropWhile isReSpace) with
      | some (warn, r) =>
        match reExpires r with
        | some (expires, r2) => some ⟨kind, tag, warn, expires, reMessage r2⟩
        | none => some ⟨kind, tag, warn, [], reMessage r⟩
      | none => none
    | none => none
  | _ => none

/-- The whole pattern, anchored at the start of `s`.  The optional tag is
tried first; if the rest then fails the match is retried without it. -/
def reMatchHere (s : List Char) : Option Submatch :=
  match s with
  | '/' :: '/' :: r =>
    match reKind (r.dropWhile isReSpace) with
    | some (kind, r) =>
      match reTag r with
      | some (tag, r2) =>
        match reAfterTag kind tag r2 with
        | some m => some m
        | none => reAfterTag kind [] r
      | none => reAfterTag kind [] r
    | none => none
  | _ => none

/-- Go `Regexp.FindStringSubmatch` for the marker pattern: the match at the
leftmost start position that has one. -/
def FindStringSubmatch (s : List Char) : Option Submatch :=
  match s with
  | [] => none
  | c :: cs =>
    match reMatchHere (c :: cs) with
    | some m => some m
    | none => FindStringSubmatch cs

/-! ## package go/ast, go/token, go/parser

The parser is an external collaborator: `scanFile` receives what
`parser.ParseFile` returned.  Of the syntax tree only what `findDecl` and
`scanFile` read is kept.  A position (Go `token.Pos`) is an `Int`. -/

/-- Go `ast.Spec`, as far as `findDecl` tells the cases apart. -/
inductive Spec where
  | ImportSpec
  | TypeSpec (Name : String)
  | ValueSpec (Names : List String)
deriving DecidableEq, Repr

/-- Go `ast.Decl` with its span (`Pos()`, `End()`). -/
inductive Decl where
  | FuncDecl (pos fin : Int) (Name : String)
  | GenDecl (pos fin : Int) (Specs : List Spec)
  | BadDecl (pos fin : Int)
deriving DecidableEq, Repr

/-- Go `Decl.Pos()`: position of the first character of the declaration. -/
def Decl.Pos : Decl → Int
  | .FuncDecl pos _ _ => pos
  | .GenDecl pos _ _ => pos
  | .BadDecl pos _ => pos

/-- Go `Decl.End()`: position of the first character after the declaration. -/
def Decl.End : Decl → Int
  | .FuncDecl _ fin _ => fin
  | .GenDecl _ fin _ => fin
  | .BadDecl _ fin => fin

/-- Go `ast.Comment`: `Slash` is `c.Pos()`. -/
structure Comment where
  Slash : Int
  Text : List Char
deriving DecidableEq, Repr

/-- Go `ast.CommentGroup`. -/
structure CommentGroup where
  List : List Comment
deriving DecidableEq, Repr

/-- Go `ast.File`. -/
structure File where
  Decls : List Decl
  Comments : List CommentGroup
deriving DecidableEq, Repr

/-- Go `token.FileSet`, reduced to `fs.Position(p).Line`. -/
structure FileSet where
  Line : Int → Int

/-! ## package log/slog -/

/-- Go `slog.Level`. -/
inductive Level where
  | Debug
  | Info
  | Warn
  | Error
deriving DecidableEq, Repr

/-- One call of a logging method: level, message and attributes. -/
structure LogRecord where
  level : Level
  msg : String
  attrs : List (String × String)
deriving DecidableEq, Repr

/-! ## cmd/gostale/main.go -/

/-- Type `Args`: the CLI arguments for gostale. -/
structure Args where
  Path : String
  Today : List Char
  Exclude : String
  FailOnExpired : Bool
  LogLevel : String
  DefaultExpiryDays : Int
  DateFormat : Layout
deriving DecidableEq, Repr

/-- Type `Annotation`: a parsed gostale comment in a Go file. -/
structure Annotation where
  File : String
  Line : Int
  Declaration : String
  WarnDate : Time
  ExpireDate : Option Time
  Message : List Char
deriving DecidableEq, Repr

/-- The defaulting at the head of `main` (lines 48-56). -/
def applyDefaults (argsData : Args) : Args :=
  let argsData := if argsData.Path = "" then { argsData with Path := "." } else argsData
  let argsData :=
    if argsData.DefaultExpiryDays ≤ 0 then { argsData with DefaultExpiryDays := 90 }
    else argsData
  if argsData.DateFormat = [] then { argsData with DateFormat := layoutDMY } else argsData

/-- Function `resolveDate`: `input` is `--today`, `env` the value of `GOSTALE_DATE`, `now`
what `time.Now()` returns.  The error stands for `os.Exit(1)`. -/
def resolveDate (input : List Char) (format : Layout) (env : List Char) (now : Time) :
    Except ParseError Time :=
  let dateStr := if input = [] then env else input
  if dateStr ≠ [] then
    match Parse format dateStr with
    | .error e => .error e
    | .ok t => .ok t
  else .ok now

/-- The `for _, spec := range decl.Specs` loop of `findDecl`. -/
def specsName : List Spec → Option String
  | [] => none
  | .TypeSpec name :: _ => some name
  | .ValueSpec names :: rest =>
    match names with
    | name :: _ => some name
    | [] => specsName rest
  | .ImportSpec :: rest => specsName rest

/-- The type switch of `findDecl`: the name at which it returns, if it does. -/
def declName : Decl → Option String
  | .FuncDecl _ _ name => some name
  | .GenDecl _ _ specs => specsName specs
  | .BadDecl _ _ => none

/-- First loop of `findDecl` (lines 251-269). -/
def findEnclosing (pos : Int) : List Decl → Option String
  | [] => none
  | d :: rest =>
    if pos ≥ d.Pos && pos ≤ d.End then
      match declName d with
      | some name => some name
      | none => findEnclosing pos rest
    else findEnclosing pos rest

/-- Second loop of `findDecl` (lines 270-288). -/
def findFollowing (pos : Int) : List Decl → Option String
  | [] => none
  | d :: rest =>
    if pos < d.Pos then
      match declName d with
      | some name => some name
      | none => findFollowing pos rest
    else findFollowing pos rest

/-- Function `findDecl`: the two loops one after the other, then the sentinel. -/
def findDecl (pos : Int) (node : File) : String :=
  match findEnclosing pos node.Decls with
  | some name => name
  | none =>
    match findFollowing pos node.Decls with
    | some name => name
    | none => "<unknown>"

/-- The layout string a chunk sequence stands for: Go's reference date,
2 January 2006, written in the layout. -/
def layoutText (layout : Layout) : String := String.mk (formatCivil layout ⟨2006, 1, 2⟩)

/-- Tail of the comment loop of `scanFile` (lines 154-167), reached with both
dates resolved: the annotation appended and the debug record logged. -/
def annotate (path : String) (fs : FileSet) (node : File) (c : Comment) (m : Submatch)
    (warn expire : Time) : Option Annotation × List LogRecord :=
  let msg := TrimSpace m.message
  let line := fs.Line c.Slash
  let decl := findDecl c.Slash node
  (some
    { File := path, Line := line, Declaration := decl, WarnDate := warn,
      ExpireDate := some expire, Message := msg },
   [⟨.Debug, "Annotation found", [("file", path), ("line", toString line), ("decl", decl)]⟩])

/-- Body of the comment loop of `scanFile` (lines 130-167): the annotation
appended to `results`, if any, and the log calls made. -/
def scanComment (argsData : Args) (path : String) (fs : FileSet) (node : File) (c : Comment) :
    Option Annotation × List LogRecord :=
  match FindStringSubmatch c.Text with
  | none => (none, [])
  | some m =>
    match Parse argsData.DateFormat m.warn with
    | .error _ =>
      (none, [⟨.Warn, "Invalid stale date format",
        [("input", String.mk m.warn), ("expected", layoutText argsData.DateFormat)]⟩])
    | .ok warn =>
      if m.expires ≠ [] then
        match Parse argsData.DateFormat m.expires with
        | .error _ =>
          (none, [⟨.Warn, "Invalid expiration date format",
            [("input", String.mk m.expires), ("expected", layoutText argsData.DateFormat)]⟩])
        | .ok t => annotate path fs node c m warn t
      else
        annotate path fs node c m warn (warn.AddDate 0 0 argsData.DefaultExpiryDays)

/-- Loop state of `scanFile`. -/
structure ScanState where
  results : List Annotation
  log : List LogRecord
deriving DecidableEq, Repr

/-- One iteration of the comment loop. -/
def scanStep (argsData : Args) (path : String) (fs : FileSet) (node : File)
    (st : ScanState) (c : Comment) : ScanState :=
  match scanComment argsData path fs node c with
  | (some a, l) => ⟨st.results ++ [a], st.log ++ l⟩
  | (none, l) => ⟨st.results, st.log ++ l⟩

/-- Function `scanFile`: `parsed` is the result of `parser.ParseFile`; the annotations of
the file in comment order, or the parser's error. -/
def scanFile (argsData : Args) (path : String) (fs : FileSet) (parsed : Except String File) :
    Except String ScanState :=
  match parsed with
  | .error err => .error err
  | .ok node =>
    .ok (node.Comments.foldl
      (fun st cg => cg.List.foldl (scanStep argsData path fs node) st) ⟨[], []⟩)

/-- Function `formatDate`. -/
def formatDate (t : Option Time) : List Char :=
  match t with
  | none => []
  | some t => t.Format layoutDMY

/-- One `log.Log` call of `reportAnnotations`.  The message
`Sprintf("%s: %s:%d [%s]", status, a.File, a.Line, a.Declaration)` is kept as
its four arguments; the attributes are `stale_date`, `expires` and `todo`. -/
structure Report where
  level : Level
  status : String
  file : String
  line : Int
  declaration : String
  stale_date : List Char
  expires : List Char
  todo : List Char
deriving DecidableEq, Repr

/-- Line 298 of `reportAnnotations`:
`isExpired := a.ExpireDate != nil && today.After(*a.ExpireDate)`. -/
def isExpired (today : Time) (a : Annotation) : Bool :=
  match a.ExpireDate with
  | none => false
  | some e => today.After e

/-- The record logged for an annotation that is not skipped (lines 299-313). -/
def reportRecord (today : Time) (a : Annotation) : Report :=
  let level := if isExpired today a then Level.Error else Level.Warn
  let status := if isExpired today a then "EXPIRED" else "STALE"
  ⟨level, status, a.File, a.Line, a.Declaration,
    a.WarnDate.Format layoutDMY, formatDate a.ExpireDate, a.Message⟩

/-- Body of the loop of `reportAnnotations` on the state `(expired, log)`. -/
def reportStep (today : Time) (st : Bool × List Report) (a : Annotation) : Bool × List Report :=
  if today.Before a.WarnDate then st
  else
    let expired := if isExpired today a then true else st.1
    (expired, st.2 ++ [reportRecord today a])

/-- Function `reportAnnotations`: the returned flag and the records logged. -/
def reportAnnotations (all : List Annotation) (today : Time) : Bool × List Report :=
  all.foldl (reportStep today) (false, [])

/-- A file handed to `main`'s loop: its path and what the parser made of it. -/
structure Source where
  path : String
  fs : FileSet
  parsed : Except String File

/-- The file loop of `main` (lines 73-82): files the parser rejects are skipped. -/
def scanAll (argsData : Args) (files : List Source) : List Annotation :=
  files.foldl
    (fun annotations f =>
      match scanFile argsData f.path f.fs f.parsed with
      | .error _ => annotations
      | .ok found => annotations ++ found.results)
    []

/-- What a run leaves behind: the exit code, the flag returned by
`reportAnnotations` and the records it logged. -/
structure Outcome where
  exitCode : Int
  expired : Bool
  report : List Report
deriving DecidableEq, Repr

/-- Function `main`: `env` is `GOSTALE_DATE`, `now` is `time.Now()`, `files` what
`collectGoFiles` and the parser deliver (or the error of `collectGoFiles`). -/
def main (argsData : Args) (env : List Char) (now : Time)
    (files : Except String (List Source)) : Outcome :=
  let argsData := applyDefaults argsData
  match resolveDate argsData.Today argsData.DateFormat env now with
  | .error _ => ⟨1, false, []⟩
  | .ok today =>
    match files with
    | .error _ => ⟨1, false, []⟩
    | .ok files =>
      let annotations := scanAll argsData files
      let (expired, report) := reportAnnotations annotations today
      if expired && argsData.FailOnExpired then ⟨1, expired, report⟩
      else ⟨0, expired, report⟩

/-! ## The contract in the words of the specification -/

/-- The name a member of a grouped declaration has for `findDecl`: a type's
name, the first name of a value specification. -/
def Spec.name : Spec → Option String
  | .TypeSpec name => some name
  | .ValueSpec (name :: _) => some name
  | _ => none

/-- Section 4.3 as worded: the first declaration whose span strictly contains
the position (`start < position < end`), else the first declaration that
starts after the position, else the sentinel `unknown`; a declaration without
a name contributes nothing. -/
def attributeSpec (pos : Int) (decls : List Decl) : String :=
  match decls.find? (fun d => decide (d.Pos < pos) && decide (pos < d.End)) with
  | some d => (declName d).getD "unknown"
  | none =>
    match decls.find? (fun d => decide (pos < d.Pos)) with
    | some d => (declName d).getD "unknown"
    | none => "unknown"

/-- The text `kind` is the keyword `pat` with each letter in lower or upper case. -/
def anyCase : List Char → List Char → Bool
  | [], [] => true
  | p :: ps, c :: cs => (c == p || c == p.toUpper) && anyCase ps cs
  | _, _ => false

/-- The text starts with the keyword `pat` in some letter case. -/
def keywordAt : List Char → List Char → Bool
  | [], _ => true
  | _ :: _, [] => false
  | p :: ps, c :: cs => (c == p || c == p.toUpper) && keywordAt ps cs

/-- The text contains the keyword `pat` in some letter case. -/
def containsKeyword (pat : List Char) : List Char → Bool
  | [] => keywordAt pat []
  | c :: cs => keywordAt pat (c :: cs) || containsKeyword pat cs

/-- A calendar date that can be written in the form `DD-MM-YYYY`. -/
def Civil.valid (c : Civil) : Prop :=
  0 ≤ c.year ∧ c.year ≤ 9999 ∧ 1 ≤ c.month ∧ c.month ≤ 12 ∧ 1 ≤ c.day ∧ c.day ≤ daysIn c.month c.year

/-- A message as the grammar takes it: on one line and without white space at
either end. -/
def plainMessage (msg : List Char) : Prop :=
  '\n' ∉ msg ∧ (∀ c, msg.head? = some c → isSpace c = false)
    ∧ (∀ c, msg.getLast? = some c → isSpace c = false)

/-- The optional `(<tag>)` of a marker. -/
def renderTag : Option (List Char) → List Char
  | some t => '(' :: t ++ [')']
  | none => []

/-- The optional ` <message>` of a marker. -/
def renderMessage : Option (List Char) → List Char
  | some msg => ' ' :: msg
  | none => []

/-- The marker comment `// <kind>(<tag>): stale:<warn> expires:<expire> <message>`
with the dates written as `DD-MM-YYYY`; tag and message are optional. -/
def renderMarker (kind : List Char) (tag : Option (List Char)) (warn expire : Civil)
    (message : Option (List Char)) : List Char :=
  ['/', '/', ' '] ++ kind ++ renderTag tag
    ++ [':', ' ', 's', 't', 'a', 'l', 'e', ':'] ++ formatCivil layoutDMY warn
    ++ [' ', 'e', 'x', 'p', 'i', 'r', 'e', 's', ':'] ++ formatCivil layoutDMY expire
    ++ renderMessage message

/-- The part of a rendered marker from the colon on. -/
def renderTail (warn expire : Civil) (message : Option (List Char)) : List Char :=
  [':', ' ', 's', 't', 'a', 'l', 'e', ':'] ++ (formatCivil layoutDMY warn
    ++ ([' ', 'e', 'x', 'p', 'i', 'r', 'e', 's', ':'] ++ (formatCivil layoutDMY expire
      ++ renderMessage message)))

/-! ## Concrete inputs used in the examples -/

/-- The comment of the end-to-end example of the specification. -/
def exampleText : List Char :=
  "// TODO: stale:01-01-2020 expires:01-01-2021 cleanup this".toList

/-- A file with one function `f` and the example comment inside its body. -/
def exampleFile : File :=
  ⟨[.FuncDecl 30 200 "f"], [⟨[⟨50, exampleText⟩]⟩]⟩

/-- A line table with ten positions per line. -/
def exampleFileSet : FileSet := ⟨fun p => p / 10 + 1⟩

/-- Arguments as `go-arg` leaves them when no flag is given. -/
def noFlags : Args := ⟨"", [], "", false, "", 0, []⟩

/-- The annotation of the example comment. -/
def exampleEntry : Annotation :=
  { File := "a.go", Line := 6, Declaration := "f", WarnDate := Date 2020 1 1 0 0 0 0,
    ExpireDate := some (Date 2021 1 1 0 0 0 0), Message := "cleanup this".toList }

/-- An annotation whose warn date lies after the reference dates of the examples. -/
def laterEntry : Annotation :=
  { File := "b.go", Line := 3, Declaration := "g", WarnDate := Date 2030 1 1 0 0 0 0,
    ExpireDate := some (Date 2031 1 1 0 0 0 0), Message := [] }

/-- A file with a type declaration, the function `f` and the function `g`. -/
def threeDecls : List Decl :=
  [.GenDecl 1 10 [.TypeSpec "T"], .FuncDecl 30 90 "f", .FuncDecl 100 150 "g"]

/-- A marker without an `expires:` clause, warn date 25-12-2024. -/
def christmasComment : Comment := ⟨50, "// TODO: stale:25-12-2024".toList⟩

/-- A marker whose `expires:` text is not of the form the pattern asks for. -/
def looseExpiresComment : Comment :=
  ⟨50, "// TODO: stale:01-01-2020 expires:1-1-2021 fix".toList⟩

/-- A marker whose `expires:` text has the form of a date but names no day. -/
def badExpiresComment : Comment :=
  ⟨50, "// TODO: stale:01-01-2020 expires:99-99-9999 fix".toList⟩

/-- A marker whose warn date has the form of a date but names no day. -/
def badWarnComment : Comment := ⟨20, "// TODO: stale:99-99-9999 drop".toList⟩

/-- A marker written in the pattern `2006-01-02`. -/
def isoComment : Comment := ⟨50, "// TODO: stale:2020-01-01".toList⟩

/-! # Theorems

## Calendar arithmetic -/

/-- Sample dates: calendar days added across the end of a year, a leap day,
the end of February of a common year and of the year 1900. -/
theorem AddDate_samples :
    (Date 2024 12 25 0 0 0 0).AddDate 0 0 10 = Date 2025 1 4 0 0 0 0
    ∧ (Date 2024 2 28 0 0 0 0).AddDate 0 0 1 = Date 2024 2 29 0 0 0 0
    ∧ (Date 2023 2 28 0 0 0 0).AddDate 0 0 1 = Date 2023 3 1 0 0 0 0
    ∧ (Date 1900 3 1 0 0 0 0).AddDate 0 0 (-1) = Date 1900 2 28 0 0 0 0
    ∧ (Date 2000 12 31 0 0 0 0).date = ⟨2000, 12, 31⟩ := by
  decide

theorem isLeap_iff (y : Int) : isLeap y = true ↔ (y % 4 = 0 ∧ (y % 100 ≠ 0 ∨ y % 400 = 0)) := by
  simp [isLeap]

/-- Arithmetic core of the year computation: cutting a day count into 400-,
100-, 4- and 1-year cycles and reassembling the year gives back the cycles. -/
theorem year_core (z e f g i j k y : Int)
    (he : e = z / 146097) (hf : f = (z - 146097 * e) / 36524) (hg : g = f / 4)
    (hi : i = (z - 146097 * e - 36524 * (f - g)) / 1461)
    (hj : j = (z - 146097 * e - 36524 * (f - g) - 1461 * i) / 365) (hk : k = j / 4)
    (hy : y = 400 * e + 100 * (f - g) + 4 * i + (j - k)) :
    y / 400 = e ∧ (y - 400 * e) / 100 = f - g ∧ (y - 400 * e - 100 * (f - g)) / 4 = i
      ∧ 0 ≤ f - g ∧ f - g ≤ 3 ∧ 0 ≤ i ∧ i ≤ 24 ∧ 0 ≤ j - k ∧ j - k ≤ 3
      ∧ 0 ≤ z - 146097 * e - 36524 * (f - g) - 1461 * i - 365 * (j - k)
      ∧ (z - 146097 * e - 36524 * (f - g) - 1461 * i - 365 * (j - k) ≤ 365)
      ∧ (z - 146097 * e - 36524 * (f - g) - 1461 * i - 365 * (j - k) = 365 →
          j - k = 3 ∧ (i < 24 ∨ f - g = 3)) := by
  have hf4 : 0 ≤ f ∧ f ≤ 4 := by omega
  have hg1 : (g = 0 ∧ f ≤ 3) ∨ (g = 1 ∧ f = 4) := by omega
  have hi24 : 0 ≤ i ∧ i ≤ 24 := by omega
  have hj4 : 0 ≤ j ∧ j ≤ 4 := by omega
  have hk1 : (k = 0 ∧ j ≤ 3) ∨ (k = 1 ∧ j = 4) := by omega
  rcases hg1 with ⟨h1, h2⟩ | ⟨h1, h2⟩ <;> rcases hk1 with ⟨h3, h4⟩ | ⟨h3, h4⟩ <;>
    subst h1 <;> subst h3 <;> omega

theorem absYearDay_eq (z : Int) :
    ∃ e c i r : Int,
      absYearDay z = (400 * e + 100 * c + 4 * i + r + 1,
        z - 146097 * e - 36524 * c - 1461 * i - 365 * r) ∧
      0 ≤ c ∧ c ≤ 3 ∧ 0 ≤ i ∧ i ≤ 24 ∧ 0 ≤ r ∧ r ≤ 3 ∧
      0 ≤ z - 146097 * e - 36524 * c - 1461 * i - 365 * r ∧
      z - 146097 * e - 36524 * c - 1461 * i - 365 * r ≤ 365 ∧
      (z - 146097 * e - 36524 * c - 1461 * i - 365 * r = 365 → r = 3 ∧ (i < 24 ∨ c = 3)) := by
  obtain ⟨-, -, -, h4, h5, h6, h7, h8, h9, h10, h11, h12⟩ :=
    year_core z _ _ _ _ _ _ _ rfl rfl rfl rfl rfl rfl rfl
  exact ⟨_, _, _, _, rfl, h4, h5, h6, h7, h8, h9, h10, h11, h12⟩

theorem daysSinceEpoch_cycles (e c i r : Int) (hc : 0 ≤ c ∧ c ≤ 3) (hi : 0 ≤ i ∧ i ≤ 24)
    (hr : 0 ≤ r ∧ r ≤ 3) :
    daysSinceEpoch (400 * e + 100 * c + 4 * i + r + 1)
      = 146097 * e + 36524 * c + 1461 * i + 365 * r := by
  simp only [daysSinceEpoch]
  omega

theorem isLeap_cycles (e c i r : Int) (hc : 0 ≤ c ∧ c ≤ 3) (hi : 0 ≤ i ∧ i ≤ 24)
    (hr : 0 ≤ r ∧ r ≤ 3) :
    isLeap (400 * e + 100 * c + 4 * i + r + 1) = true ↔ (r = 3 ∧ (i < 24 ∨ c = 3)) := by
  rw [isLeap_iff]
  omega

theorem absYearDay_spec (z : Int) :
    daysSinceEpoch (absYearDay z).1 + (absYearDay z).2 = z ∧ 0 ≤ (absYearDay z).2 ∧
      (absYearDay z).2 < 365 + (if isLeap (absYearDay z).1 then 1 else 0) := by
  obtain ⟨e, c, i, r, heq, hc0, hc3, hi0, hi24, hr0, hr3, hd0, hd365, hlast⟩ := absYearDay_eq z
  rw [heq]
  simp only
  rw [daysSinceEpoch_cycles e c i r ⟨hc0, hc3⟩ ⟨hi0, hi24⟩ ⟨hr0, hr3⟩]
  have hl := isLeap_cycles e c i r ⟨hc0, hc3⟩ ⟨hi0, hi24⟩ ⟨hr0, hr3⟩
  refine ⟨by omega, hd0, ?_⟩
  split
  · omega
  · rename_i hn
    rw [hl] at hn
    omega

theorem absMonthDay_eq (year yday : Int) :
    absMonthDay year yday
      = ⟨year, (monthDayCore (isLeap year) yday).1, (monthDayCore (isLeap year) yday).2⟩ := by
  unfold absMonthDay monthDayCore
  dsimp only
  split_ifs <;> rfl

set_option maxRecDepth 100000 in
theorem monthDayCore_table : ∀ (b : Bool) (n : Fin 366), (b = true ∨ n.val < 365) →
    1 ≤ (monthDayCore b n.val).1 ∧ (monthDayCore b n.val).1 ≤ 12 ∧
    1 ≤ (monthDayCore b n.val).2 ∧
    (monthDayCore b n.val).2 ≤
      (if (monthDayCore b n.val).1 = 2 && b then 29
        else daysBefore (monthDayCore b n.val).1 - daysBefore ((monthDayCore b n.val).1 - 1)) ∧
    daysBefore ((monthDayCore b n.val).1 - 1)
      + (if b && (monthDayCore b n.val).1 ≥ 3 then 1 else 0)
      + ((monthDayCore b n.val).2 - 1) = n.val := by
  decide

theorem absMonthDay_spec (year yday : Int) (h0 : 0 ≤ yday)
    (h1 : yday < 365 + (if isLeap year then 1 else 0)) :
    (absMonthDay year yday).year = year ∧
    1 ≤ (absMonthDay year yday).month ∧ (absMonthDay year yday).month ≤ 12 ∧
    1 ≤ (absMonthDay year yday).day ∧
    (absMonthDay year yday).day ≤ daysIn (absMonthDay year yday).month year ∧
    daysBefore ((absMonthDay year yday).month - 1)
      + (if isLeap year && (absMonthDay year yday).month ≥ 3 then 1 else 0)
      + ((absMonthDay year yday).day - 1) = yday := by
  rw [absMonthDay_eq]
  obtain ⟨n, rfl⟩ := Int.eq_ofNat_of_zero_le h0
  have hn : n < 366 := by split at h1 <;> omega
  have hb : isLeap year = true ∨ (⟨n, hn⟩ : Fin 366).val < 365 := by
    by_cases hl : isLeap year = true
    · exact Or.inl hl
    · right
      rw [if_neg hl] at h1
      show n < 365
      omega
  have := monthDayCore_table (isLeap year) ⟨n, hn⟩ hb
  simp only [daysIn]
  exact ⟨trivial, this⟩

theorem absDate_spec (z : Int) :
    1 ≤ (absDate z).month ∧ (absDate z).month ≤ 12 ∧ 1 ≤ (absDate z).day ∧
      (absDate z).day ≤ daysIn (absDate z).month (absDate z).year ∧
      civilDays (absDate z) = z := by
  obtain ⟨hs, h0, h1⟩ := absYearDay_spec z
  obtain ⟨hy, hm1, hm12, hd1, hdn, hsum⟩ := absMonthDay_spec _ _ h0 h1
  have habs : absDate z = absMonthDay (absYearDay z).1 (absYearDay z).2 := rfl
  rw [habs]
  refine ⟨hm1, hm12, hd1, ?_, ?_⟩
  · rw [hy]; exact hdn
  · unfold civilDays
    rw [hy]
    omega

theorem norm_id (hi lo base : Int) (h0 : 0 ≤ lo) (h1 : lo < base) :
    norm hi lo base = (hi, lo) := by
  unfold norm
  simp only [not_lt.mpr h0, if_false, ge_iff_le, not_le.mpr h1]

/-- Go `Date` on in-range month and clock fields: the day field is simply added
to the day count of the first of the month. -/
theorem Date_eq (year month day hour min sec nsec : Int)
    (hm : 1 ≤ month ∧ month ≤ 12) (hh : 0 ≤ hour ∧ hour < 24) (hmi : 0 ≤ min ∧ min < 60)
    (hs : 0 ≤ sec ∧ sec < 60) (hn : 0 ≤ nsec ∧ nsec < 1000000000) :
    Date year month day hour min sec nsec
      = ⟨((civilDays ⟨year, month, day⟩) * 86400 + (hour * 3600 + min * 60 + sec)) * 1000000000
          + nsec⟩ := by
  unfold Date civilDays
  simp only [norm_id year (month - 1) 12 (by omega) (by omega),
    norm_id sec nsec 1000000000 hn.1 hn.2, norm_id min sec 60 hs.1 hs.2,
    norm_id hour min 60 hmi.1 hmi.2, norm_id day hour 24 hh.1 hh.2, Int.sub_add_cancel]
  split_ifs <;> first | (congr 1; ring) | congr 1

/-- Adding calendar days via `AddDate` moves the instant by exactly that many
24-hour days, whatever month, year or leap-day boundary is crossed. -/
theorem AddDate_days (t : Time) (n : Int) : t.AddDate 0 0 n = ⟨t.ns + n * nsPerDay⟩ := by
  obtain ⟨hm1, hm12, -, -, hsum⟩ := absDate_spec (t.ns / nsPerDay)
  unfold Time.AddDate Time.date Time.clock
  simp only [Int.add_zero]
  rw [Date_eq _ _ _ _ _ _ _ ⟨hm1, hm12⟩ (by simp only [nsPerDay, nsPerSecond]; omega)
    (by omega) (by omega) (by simp only [nsPerDay, nsPerSecond]; omega)]
  have hc : civilDays ⟨(absDate (t.ns / nsPerDay)).year, (absDate (t.ns / nsPerDay)).month,
      (absDate (t.ns / nsPerDay)).day + n⟩ = t.ns / nsPerDay + n := by
    unfold civilDays at hsum ⊢
    simp only at hsum ⊢
    omega
  rw [hc]
  simp only [nsPerDay, nsPerSecond]
  congr 1
  omega

/-! ## reportAnnotations -/

theorem Before_iff (t u : Time) : t.Before u = true ↔ t.ns < u.ns := by
  simp [Time.Before]

theorem After_iff (t u : Time) : t.After u = true ↔ u.ns < t.ns := by
  simp [Time.After]

/-- The loop of `reportAnnotations` started in any state. -/
theorem foldl_reportStep (today : Time) (all : List Annotation) (st : Bool × List Report) :
    all.foldl (reportStep today) st
      = (st.1 || all.any (fun a => !today.Before a.WarnDate && isExpired today a),
         st.2 ++ (all.filter (fun a => !today.Before a.WarnDate)).map (reportRecord today)) := by
  induction all generalizing st with
  | nil => simp
  | cons a rest ih =>
    rw [List.foldl_cons, ih]
    unfold reportStep
    by_cases hb : today.Before a.WarnDate = true
    · simp [hb]
    · by_cases he : isExpired today a = true
      · simp [hb, he]
      · simp [hb, he]

theorem reportAnnotations_eq (all : List Annotation) (today : Time) :
    reportAnnotations all today
      = (all.any (fun a => !today.Before a.WarnDate && isExpired today a),
         (all.filter (fun a => !today.Before a.WarnDate)).map (reportRecord today)) := by
  unfold reportAnnotations
  rw [foldl_reportStep]
  simp

theorem reportRecord_status (today : Time) (a : Annotation) :
    (reportRecord today a).status = if isExpired today a then "EXPIRED" else "STALE" := rfl

/-! ## scanFile -/

/-- The comment loop started in any state: every comment contributes what
`scanComment` yields for it, in order. -/
theorem foldl_scanStep (argsData : Args) (path : String) (fs : FileSet) (node : File)
    (cs : List Comment) (st : ScanState) :
    cs.foldl (scanStep argsData path fs node) st
      = ⟨st.results ++ cs.filterMap (fun c => (scanComment argsData path fs node c).1),
         st.log ++ cs.flatMap (fun c => (scanComment argsData path fs node c).2)⟩ := by
  induction cs generalizing st with
  | nil => simp
  | cons c rest ih =>
    rw [List.foldl_cons, ih]
    unfold scanStep
    rcases h : scanComment argsData path fs node c with ⟨_ | a, l⟩ <;>
      simp [List.filterMap_cons, h]

theorem foldl_groups (argsData : Args) (path : String) (fs : FileSet) (node : File)
    (gs : List CommentGroup) (st : ScanState) :
    gs.foldl (fun st cg => cg.List.foldl (scanStep argsData path fs node) st) st
      = ⟨st.results
          ++ (gs.flatMap (fun g => g.List)).filterMap (fun c => (scanComment argsData path fs node c).1),
         st.log
          ++ (gs.flatMap (fun g => g.List)).flatMap (fun c => (scanComment argsData path fs node c).2)⟩ := by
  induction gs generalizing st with
  | nil => simp
  | cons g rest ih =>
    rw [List.foldl_cons, ih, foldl_scanStep]
    simp

/-- Function `scanFile` on a parsed file: the annotations are those of the comments, in
comment order. -/
theorem scanFile_ok (argsData : Args) (path : String) (fs : FileSet) (node : File) :
    scanFile argsData path fs (.ok node)
      = .ok ⟨(node.Comments.flatMap (fun g => g.List)).filterMap
              (fun c => (scanComment argsData path fs node c).1),
             (node.Comments.flatMap (fun g => g.List)).flatMap
              (fun c => (scanComment argsData path fs node c).2)⟩ := by
  unfold scanFile
  simp only [foldl_groups, List.nil_append]

/-- The loop body `scanComment` reads the syntax tree only through its declarations. -/
theorem scanComment_decls (argsData : Args) (path : String) (fs : FileSet) (decls : List Decl)
    (cs cs2 : List CommentGroup) (c : Comment) :
    scanComment argsData path fs ⟨decls, cs⟩ c = scanComment argsData path fs ⟨decls, cs2⟩ c := rfl

/-- A comment for which `scanComment` yields no annotation can be taken out of
the file without changing the annotations `scanFile` returns. -/
theorem scanFile_drop (argsData : Args) (path : String) (fs : FileSet) (decls : List Decl)
    (before after : List CommentGroup) (pre post : List Comment) (c : Comment)
    (h : (scanComment argsData path fs ⟨decls, before ++ ⟨pre ++ c :: post⟩ :: after⟩ c).1 = none) :
    Except.map ScanState.results
        (scanFile argsData path fs (.ok ⟨decls, before ++ ⟨pre ++ c :: post⟩ :: after⟩))
      = Except.map ScanState.results
        (scanFile argsData path fs (.ok ⟨decls, before ++ ⟨pre ++ post⟩ :: after⟩)) := by
  rw [scanFile_ok, scanFile_ok]
  simp only [Except.map]
  congr 1
  simp only [List.flatMap_append, List.flatMap_cons, List.filterMap_append, List.filterMap_cons, h]
  rfl

/-- Every annotation `scanComment` produces has its expire date set. -/
theorem scanComment_expire_set (argsData : Args) (path : String) (fs : FileSet) (node : File)
    (c : Comment) (a : Annotation) (h : (scanComment argsData path fs node c).1 = some a) :
    ∃ e, a.ExpireDate = some e := by
  unfold scanComment at h
  split at h
  · simp at h
  · split at h
    · simp at h
    · split at h
      · split at h
        · simp at h
        · simp only [annotate, Option.some.injEq] at h
          subst h
          exact ⟨_, rfl⟩
      · simp only [annotate, Option.some.injEq] at h
        subst h
        exact ⟨_, rfl⟩

/-! ## Claims on classification -/

theorem isExpired_iff (today : Time) (a : Annotation) :
    isExpired today a = true ↔ ∃ e, a.ExpireDate = some e ∧ e.ns < today.ns := by
  unfold isExpired
  cases a.ExpireDate with
  | none => simp
  | some e => simp [After_iff]

theorem not_Before_iff (today : Time) (a : Annotation) :
    (!today.Before a.WarnDate) = true ↔ a.WarnDate.ns ≤ today.ns := by
  simp [Time.Before]

/-- C1. `reportAnnotations` logs exactly one record for every annotation whose
warn date is not after the reference date, in input order, and none for the
others (PENDING).  A record has status EXPIRED exactly when the expire date is
set and the reference date is after it, and STALE otherwise.  For an
annotation with `warnDate ≤ expireDate`: at `referenceDate = warnDate` it is
reported, at `referenceDate = expireDate` it is STALE, and one day later it is
EXPIRED. -/
theorem reportAnnotations_classification (all : List Annotation) (today : Time)
    (a : Annotation) (e : Time) (hexp : a.ExpireDate = some e) (hle : a.WarnDate.ns ≤ e.ns) :
    (reportAnnotations all today).2
        = (all.filter (fun b => decide (b.WarnDate.ns ≤ today.ns))).map (reportRecord today)
    ∧ (∀ b, (reportRecord today b).status = "EXPIRED" ↔
          ∃ x, b.ExpireDate = some x ∧ x.ns < today.ns)
    ∧ (∀ b, (reportRecord today b).status = "STALE" ↔
          ¬ ∃ x, b.ExpireDate = some x ∧ x.ns < today.ns)
    ∧ (reportAnnotations [a] a.WarnDate).2 = [reportRecord a.WarnDate a]
    ∧ reportAnnotations [a] e = (false, [reportRecord e a])
    ∧ (reportRecord e a).status = "STALE"
    ∧ reportAnnotations [a] (e.AddDate 0 0 1) = (true, [reportRecord (e.AddDate 0 0 1) a])
    ∧ (reportRecord (e.AddDate 0 0 1) a).status = "EXPIRED" := by
  have hst : ∀ (t : Time) (b : Annotation), (reportRecord t b).status = "EXPIRED" ↔
      ∃ x, b.ExpireDate = some x ∧ x.ns < t.ns := by
    intro t b
    rw [reportRecord_status, ← isExpired_iff]
    by_cases h : isExpired t b = true
    · simp [h]
    · simp [h]
  have hst2 : ∀ (t : Time) (b : Annotation), (reportRecord t b).status = "STALE" ↔
      ¬ ∃ x, b.ExpireDate = some x ∧ x.ns < t.ns := by
    intro t b
    rw [reportRecord_status, ← isExpired_iff]
    by_cases h : isExpired t b = true
    · simp [h]
    · simp [h]
  have hnot : isExpired e a = false := by
    simp [isExpired, hexp, Time.After]
  have hday : (e.AddDate 0 0 1).ns = e.ns + nsPerDay := by
    rw [AddDate_days]; simp
  have hpos : (0 : Int) < nsPerDay := by decide
  have hyes : isExpired (e.AddDate 0 0 1) a = true := by
    simp only [isExpired, hexp, Time.After, hday]
    simp only [decide_eq_true_eq]
    omega
  refine ⟨?_, hst today, hst2 today, ?_, ?_, ?_, ?_, ?_⟩
  · rw [reportAnnotations_eq]
    have hf : (fun b : Annotation => !today.Before b.WarnDate)
        = (fun b : Annotation => decide (b.WarnDate.ns ≤ today.ns)) := by
      funext b
      by_cases h : b.WarnDate.ns ≤ today.ns
      · simp [Time.Before, h]
      · simp only [Time.Before, h, decide_False, Bool.not_eq_false', decide_eq_true_eq]
        omega
    rw [hf]
  · rw [reportAnnotations_eq]
    simp [Time.Before]
  · rw [reportAnnotations_eq]
    simp [Time.Before, hnot, hle]
  · rw [hst2]
    rintro ⟨x, hx, hlt⟩
    rw [hexp] at hx
    cases hx
    omega
  · rw [reportAnnotations_eq]
    have : ¬ (e.AddDate 0 0 1).ns < a.WarnDate.ns := by omega
    simp [Time.Before, hyes, this]
  · rw [hst]
    exact ⟨e, hexp, by omega⟩

/-- Witness for C1: the example annotation (warn 01-01-2020, expires 01-01-2021)
among two annotations, reference date 01-06-2021. -/
theorem reportAnnotations_classification_witness :
    exampleEntry.ExpireDate = some (Date 2021 1 1 0 0 0 0)
    ∧ exampleEntry.WarnDate.ns ≤ (Date 2021 1 1 0 0 0 0).ns
    ∧ (reportAnnotations [laterEntry, exampleEntry] (Date 2021 6 1 0 0 0 0)).2
        = ([laterEntry, exampleEntry].filter
            (fun b => decide (b.WarnDate.ns ≤ (Date 2021 6 1 0 0 0 0).ns))).map
            (reportRecord (Date 2021 6 1 0 0 0 0))
    ∧ reportAnnotations [exampleEntry] (Date 2021 1 1 0 0 0 0)
        = (false, [reportRecord (Date 2021 1 1 0 0 0 0) exampleEntry])
    ∧ reportAnnotations [exampleEntry] ((Date 2021 1 1 0 0 0 0).AddDate 0 0 1)
        = (true, [reportRecord ((Date 2021 1 1 0 0 0 0).AddDate 0 0 1) exampleEntry]) :=
  have h := reportAnnotations_classification [laterEntry, exampleEntry]
    (Date 2021 6 1 0 0 0 0) exampleEntry (Date 2021 1 1 0 0 0 0) rfl (by decide)
  ⟨rfl, by decide, h.1, h.2.2.2.2.1, h.2.2.2.2.2.2.1⟩

/-- C2. The flag returned by `reportAnnotations` is true exactly when some
annotation is EXPIRED: its warn date is not after the reference date, its
expire date is set, and the reference date is after the expire date.  A run
over one file holding the comment
`// TODO: stale:01-01-2020 expires:01-01-2021 cleanup this`, with reference
date 01-06-2021, logs exactly one record, of status EXPIRED, and has the flag
set. -/
theorem reportAnnotations_flag (all : List Annotation) (today : Time) :
    ((reportAnnotations all today).1 = true ↔
        ∃ a ∈ all, a.WarnDate.ns ≤ today.ns ∧ ∃ e, a.ExpireDate = some e ∧ e.ns < today.ns)
    ∧ scanFile (applyDefaults noFlags) "a.go" exampleFileSet (.ok exampleFile)
        = .ok ⟨[exampleEntry],
            [⟨.Debug, "Annotation found", [("file", "a.go"), ("line", "6"), ("decl", "f")]⟩]⟩
    ∧ Parse layoutDMY "01-06-2021".toList = .ok (Date 2021 6 1 0 0 0 0)
    ∧ reportAnnotations [exampleEntry] (Date 2021 6 1 0 0 0 0)
        = (true, [⟨.Error, "EXPIRED", "a.go", 6, "f", "01-01-2020".toList, "01-01-2021".toList,
            "cleanup this".toList⟩])
    ∧ main { noFlags with Today := "01-06-2021".toList, FailOnExpired := true } [] ⟨0⟩
          (.ok [⟨"a.go", exampleFileSet, .ok exampleFile⟩])
        = ⟨1, true, [⟨.Error, "EXPIRED", "a.go", 6, "f", "01-01-2020".toList,
            "01-01-2021".toList, "cleanup this".toList⟩]⟩ := by
  refine ⟨?_, by decide, by decide, by decide, by decide⟩
  rw [reportAnnotations_eq]
  simp only [List.any_eq_true, Bool.and_eq_true, not_Before_iff, isExpired_iff]

/-- C3 (evaluation of the code at the failing input).  Without `--today` and
`GOSTALE_DATE`, `resolveDate` returns the current instant as it is, time of day
included.  At noon of 01-01-2021 the example annotation, whose expire date is
01-01-2021, is therefore reported EXPIRED with the flag set, whereas with the
reference date 01-01-2021 itself it is STALE. -/
theorem resolveDate_keeps_time_of_day :
    (∀ (format : Layout) (now : Time), resolveDate [] format [] now = .ok now)
    ∧ (Date 2021 1 1 12 0 0 0).date = ⟨2021, 1, 1⟩
    ∧ (Date 2021 1 1 12 0 0 0).ns = (Date 2021 1 1 0 0 0 0).ns + 12 * 3600 * nsPerSecond
    ∧ reportAnnotations [exampleEntry] (Date 2021 1 1 12 0 0 0)
        = (true, [⟨.Error, "EXPIRED", "a.go", 6, "f", "01-01-2020".toList, "01-01-2021".toList,
            "cleanup this".toList⟩])
    ∧ resolveDate "01-01-2021".toList layoutDMY [] (Date 2021 1 1 12 0 0 0)
        = .ok (Date 2021 1 1 0 0 0 0)
    ∧ reportAnnotations [exampleEntry] (Date 2021 1 1 0 0 0 0)
        = (false, [⟨.Warn, "STALE", "a.go", 6, "f", "01-01-2020".toList, "01-01-2021".toList,
            "cleanup this".toList⟩]) := by
  refine ⟨?_, by decide, by decide, by decide, by decide, by decide⟩
  intro format now
  simp [resolveDate]

/-! ## findDecl -/

theorem specsName_eq (specs : List Spec) :
    specsName specs = (specs.filterMap Spec.name).head? := by
  induction specs with
  | nil => rfl
  | cons s rest ih =>
    cases s with
    | ImportSpec => simp [specsName, Spec.name, ih]
    | TypeSpec n => simp [specsName, Spec.name]
    | ValueSpec names =>
      cases names with
      | nil => simp [specsName, Spec.name, ih]
      | cons n ns => simp [specsName, Spec.name]

theorem findEnclosing_eq (pos : Int) (decls : List Decl) :
    findEnclosing pos decls
      = (decls.find? (fun d => decide (d.Pos ≤ pos) && decide (pos ≤ d.End)
          && (declName d).isSome)).bind declName := by
  induction decls with
  | nil => rfl
  | cons d rest ih =>
    unfold findEnclosing
    rw [ih]
    by_cases h1 : d.Pos ≤ pos <;> by_cases h2 : pos ≤ d.End <;>
      cases hn : declName d <;> simp [h1, h2, hn, List.find?_cons]

theorem findFollowing_eq (pos : Int) (decls : List Decl) :
    findFollowing pos decls
      = (decls.find? (fun d => decide (pos < d.Pos) && (declName d).isSome)).bind declName := by
  induction decls with
  | nil => rfl
  | cons d rest ih =>
    unfold findFollowing
    rw [ih]
    by_cases h1 : pos < d.Pos <;> cases hn : declName d <;> simp [h1, hn, List.find?_cons]

theorem findEnclosing_none (pos : Int) (decls : List Decl)
    (h : ∀ d ∈ decls, pos < d.Pos ∨ d.End < pos) : findEnclosing pos decls = none := by
  induction decls with
  | nil => rfl
  | cons d rest ih =>
    unfold findEnclosing
    have hd := h d (List.mem_cons_self _ _)
    have : ¬ (d.Pos ≤ pos ∧ pos ≤ d.End) := by omega
    simp only [ge_iff_le, Bool.and_eq_true, decide_eq_true_eq, this, if_false]
    exact ih (fun x hx => h x (List.mem_cons_of_mem _ hx))

theorem findEnclosing_append (pos : Int) (pre rest : List Decl)
    (h : ∀ d ∈ pre, pos < d.Pos ∨ d.End < pos) :
    findEnclosing pos (pre ++ rest) = findEnclosing pos rest := by
  induction pre with
  | nil => rfl
  | cons d ds ih =>
    rw [List.cons_append]
    have hd := h d (List.mem_cons_self _ _)
    have : ¬ (d.Pos ≤ pos ∧ pos ≤ d.End) := by omega
    simp only [findEnclosing, ge_iff_le, Bool.and_eq_true, decide_eq_true_eq, this, if_false]
    exact ih (fun x hx => h x (List.mem_cons_of_mem _ hx))

theorem findFollowing_append (pos : Int) (pre rest : List Decl)
    (h : ∀ d ∈ pre, d.Pos ≤ pos) :
    findFollowing pos (pre ++ rest) = findFollowing pos rest := by
  induction pre with
  | nil => rfl
  | cons d ds ih =>
    rw [List.cons_append]
    have hd := h d (List.mem_cons_self _ _)
    have : ¬ pos < d.Pos := by omega
    simp only [findFollowing, decide_eq_true_eq, this, if_false]
    exact ih (fun x hx => h x (List.mem_cons_of_mem _ hx))

/-- C9. In a file whose declarations are listed in source order with
non-overlapping spans, a position inside the span of a function declaration
is attributed to that function, and so is a position that lies outside every
declaration span and has that function as its next following declaration. -/
theorem findDecl_function (pre post : List Decl) (p e : Int) (name : String)
    (comments : List CommentGroup) (inside above : Int)
    (hsorted : (pre ++ Decl.FuncDecl p e name :: post).Pairwise (fun a b => a.End ≤ b.Pos))
    (hin : p < inside ∧ inside ≤ e)
    (hout : ∀ d ∈ pre ++ Decl.FuncDecl p e name :: post, above < d.Pos ∨ d.End < above)
    (hnext : (∀ d ∈ pre, d.Pos ≤ above) ∧ above < p) :
    findDecl inside ⟨pre ++ Decl.FuncDecl p e name :: post, comments⟩ = name
    ∧ findDecl above ⟨pre ++ Decl.FuncDecl p e name :: post, comments⟩ = name := by
  constructor
  · have hpre : ∀ d ∈ pre, inside < d.Pos ∨ d.End < inside := by
      intro d hd
      have := (List.pairwise_append.mp hsorted).2.2 d hd (Decl.FuncDecl p e name)
        (List.mem_cons_self _ _)
      simp only [Decl.Pos] at this
      omega
    unfold findDecl
    simp only
    rw [findEnclosing_append _ _ _ hpre]
    unfold findEnclosing
    simp [Decl.Pos, Decl.End, declName, hin.2, le_of_lt hin.1]
  · unfold findDecl
    simp only
    rw [findEnclosing_none _ _ hout, findFollowing_append _ _ _ hnext.1]
    unfold findFollowing
    simp [Decl.Pos, declName, hnext.2]

/-- Witness for C9: type `T` at 1-10, function `f` at 30-90, function `g` at
100-150; position 50 is inside `f`, position 20 is just above it. -/
theorem findDecl_function_witness :
    ([Decl.GenDecl 1 10 [.TypeSpec "T"]] ++ Decl.FuncDecl 30 90 "f" :: [Decl.FuncDecl 100 150 "g"]).Pairwise
        (fun a b => a.End ≤ b.Pos)
    ∧ ((30 : Int) < 50 ∧ (50 : Int) ≤ 90)
    ∧ findDecl 50 ⟨[Decl.GenDecl 1 10 [.TypeSpec "T"]] ++ Decl.FuncDecl 30 90 "f"
        :: [Decl.FuncDecl 100 150 "g"], []⟩ = "f"
    ∧ findDecl 20 ⟨[Decl.GenDecl 1 10 [.TypeSpec "T"]] ++ Decl.FuncDecl 30 90 "f"
        :: [Decl.FuncDecl 100 150 "g"], []⟩ = "f" :=
  have hs : ([Decl.GenDecl 1 10 [.TypeSpec "T"]] ++ Decl.FuncDecl 30 90 "f"
      :: [Decl.FuncDecl 100 150 "g"]).Pairwise (fun a b => a.End ≤ b.Pos) := by decide
  have h := findDecl_function [Decl.GenDecl 1 10 [.TypeSpec "T"]] [Decl.FuncDecl 100 150 "g"]
    30 90 "f" [] 50 20 hs (by decide) (by decide) (by decide)
  ⟨hs, by decide, h.1, h.2⟩

/-- C10 (counterexample).  With `f` at 10-20 and `g` at 30-40, position 20 (the
first position after `f`) is not strictly inside any span, so the rule as
worded attributes it to the following declaration `g`; `findDecl` returns `f`.
The sentinel is the text `<unknown>`, not `unknown`. -/
theorem findDecl_end_inclusive :
    findDecl 20 ⟨[.FuncDecl 10 20 "f", .FuncDecl 30 40 "g"], []⟩ = "f"
    ∧ attributeSpec 20 [.FuncDecl 10 20 "f", .FuncDecl 30 40 "g"] = "g"
    ∧ findDecl 50 ⟨[.FuncDecl 10 20 "f", .FuncDecl 30 40 "g"], []⟩ = "<unknown>"
    ∧ attributeSpec 50 [.FuncDecl 10 20 "f", .FuncDecl 30 40 "g"] = "unknown" := by
  decide

/-- C10 (amended).  `findDecl` returns the name of the first declaration in
tree order that has a name and whose span contains the position, both ends
included (`start ≤ position ≤ end`); if there is none, the name of the first
declaration that has a name and starts after the position; if there is none
either, the sentinel `<unknown>`.  A function has its own name, a grouped
declaration the name of its first named member. -/
theorem findDecl_two_pass (pos : Int) (node : File) :
    findDecl pos node
      = (match node.Decls.find? (fun d => decide (d.Pos ≤ pos) && decide (pos ≤ d.End)
            && (declName d).isSome) with
        | some d => (declName d).getD "<unknown>"
        | none =>
          match node.Decls.find? (fun d => decide (pos < d.Pos) && (declName d).isSome) with
          | some d => (declName d).getD "<unknown>"
          | none => "<unknown>")
    ∧ (∀ p e name, declName (.FuncDecl p e name) = some name)
    ∧ (∀ p e specs, declName (.GenDecl p e specs) = (specs.filterMap Spec.name).head?) := by
  refine ⟨?_, fun _ _ _ => rfl, fun _ _ specs => specsName_eq specs⟩
  unfold findDecl
  rw [findEnclosing_eq, findFollowing_eq]
  cases h1 : node.Decls.find? (fun d => decide (d.Pos ≤ pos) && decide (pos ≤ d.End)
      && (declName d).isSome) with
  | some d =>
    have := List.find?_some h1
    simp only [Bool.and_eq_true] at this
    obtain ⟨n, hn⟩ := Option.isSome_iff_exists.mp this.2
    simp [hn]
  | none =>
    simp only [Option.bind_none]
    cases h2 : node.Decls.find? (fun d => decide (pos < d.Pos) && (declName d).isSome) with
    | some d =>
      have := List.find?_some h2
      simp only [Bool.and_eq_true] at this
      obtain ⟨n, hn⟩ := Option.isSome_iff_exists.mp this.2
      simp [hn]
    | none => simp

/-! ## Claims on scanFile -/

/-- C4 (counterexample).  A run given the default-expiry count 0 scans the
marker `// TODO: stale:25-12-2024` into an annotation that expires on
25-03-2025, ninety days after the warn date, not on the warn date plus 0 days. -/
theorem defaultExpiry_zero_is_ninety :
    Except.map ScanState.results
        (scanFile (applyDefaults { noFlags with DefaultExpiryDays := 0 }) "a.go" exampleFileSet
          (.ok ⟨[], [⟨[christmasComment]⟩]⟩))
      = .ok [{ File := "a.go", Line := 6, Declaration := "<unknown>",
               WarnDate := Date 2024 12 25 0 0 0 0,
               ExpireDate := some (Date 2025 3 25 0 0 0 0), Message := [] }]
    ∧ (Date 2024 12 25 0 0 0 0).AddDate 0 0 0 = Date 2024 12 25 0 0 0 0
    ∧ (Date 2025 3 25 0 0 0 0).ns = (Date 2024 12 25 0 0 0 0).ns + 90 * nsPerDay := by
  decide

/-- C4 (amended).  Let `n` be the default-expiry count a run works with: the
supplied count if it is positive, 90 if it is zero or negative.  For a
supplied count below `2 ^ 31` (far inside the range in which Go's 64-bit time
arithmetic does not wrap, which is where `Time.AddDate` stands for Go's), a
marker with a valid warn date and no `expires:` clause yields an annotation
whose expire date is the warn date plus `n` calendar days, which is the
instant `n` times 24 hours later (25-12-2024 plus 10 days is 04-01-2025); a
marker with an `expires:` clause holding a valid date yields an annotation
with that date; every annotation `scanFile` returns has its expire date set. -/
theorem scanFile_expire_date (supplied : Args) (path : String) (fs : FileSet) (node : File)
    (c : Comment) (m : Submatch) (warn : Time)
    (hN : supplied.DefaultExpiryDays < 2 ^ 31)
    (hm : FindStringSubmatch c.Text = some m)
    (hw : Parse (applyDefaults supplied).DateFormat m.warn = .ok warn) :
    (if supplied.DefaultExpiryDays ≤ 0 then 90 else supplied.DefaultExpiryDays) < 2 ^ 31
    ∧ (m.expires = [] →
      (scanComment (applyDefaults supplied) path fs node c).1.map
          (fun a => (a.WarnDate, a.ExpireDate))
        = some (warn, some (warn.AddDate 0 0
            (if supplied.DefaultExpiryDays ≤ 0 then 90 else supplied.DefaultExpiryDays))))
    ∧ warn.AddDate 0 0 (if supplied.DefaultExpiryDays ≤ 0 then 90 else supplied.DefaultExpiryDays)
        = ⟨warn.ns
            + (if supplied.DefaultExpiryDays ≤ 0 then 90 else supplied.DefaultExpiryDays) * nsPerDay⟩
    ∧ (∀ e, m.expires ≠ [] → Parse (applyDefaults supplied).DateFormat m.expires = .ok e →
        (scanComment (applyDefaults supplied) path fs node c).1.map
            (fun a => (a.WarnDate, a.ExpireDate))
          = some (warn, some e))
    ∧ (∀ st, scanFile (applyDefaults supplied) path fs (.ok node) = .ok st →
        ∀ a ∈ st.results, ∃ e, a.ExpireDate = some e)
    ∧ (Date 2024 12 25 0 0 0 0).AddDate 0 0 10 = Date 2025 1 4 0 0 0 0 := by
  have hdays : (applyDefaults supplied).DefaultExpiryDays
      = if supplied.DefaultExpiryDays ≤ 0 then 90 else supplied.DefaultExpiryDays := by
    unfold applyDefaults
    simp only
    split_ifs <;> simp_all
  refine ⟨?_, ?_, AddDate_days _ _, ?_, ?_, by decide⟩
  · split
    · decide
    · exact hN
  · intro he
    simp only [scanComment, hm, hw, he, ne_eq, not_true_eq_false, if_false, annotate,
      Option.map_some', hdays]
  · intro e hne hp
    simp only [scanComment, hm, hw, hne, ne_eq, not_false_eq_true, if_true, hp, annotate,
      Option.map_some']
  · intro st hst a ha
    rw [scanFile_ok] at hst
    cases hst
    obtain ⟨c2, -, hc2⟩ := List.mem_filterMap.mp ha
    exact scanComment_expire_set _ _ _ _ _ _ hc2

/-- Witness for C4: the count 10 supplied, marker `// TODO: stale:25-12-2024`. -/
theorem scanFile_expire_date_witness :
    ({ noFlags with DefaultExpiryDays := 10 } : Args).DefaultExpiryDays < 2 ^ 31
    ∧ FindStringSubmatch christmasComment.Text
        = some ⟨"TODO".toList, [], "25-12-2024".toList, [], []⟩
    ∧ Parse (applyDefaults { noFlags with DefaultExpiryDays := 10 }).DateFormat "25-12-2024".toList
        = .ok (Date 2024 12 25 0 0 0 0)
    ∧ (scanComment (applyDefaults { noFlags with DefaultExpiryDays := 10 }) "a.go" exampleFileSet
          ⟨[], [⟨[christmasComment]⟩]⟩ christmasComment).1.map
          (fun a => (a.WarnDate, a.ExpireDate))
        = some (Date 2024 12 25 0 0 0 0, some ((Date 2024 12 25 0 0 0 0).AddDate 0 0 10))
    ∧ (Date 2024 12 25 0 0 0 0).AddDate 0 0 10 = Date 2025 1 4 0 0 0 0 :=
  have h := scanFile_expire_date { noFlags with DefaultExpiryDays := 10 } "a.go" exampleFileSet
    ⟨[], [⟨[christmasComment]⟩]⟩ christmasComment
    ⟨"TODO".toList, [], "25-12-2024".toList, [], []⟩ (Date 2024 12 25 0 0 0 0)
    (by decide) (by decide) (by decide)
  ⟨by decide, by decide, by decide, h.2.1 rfl, h.2.2.2.2.2⟩

/-- C5 (evaluation of the code at the failing input).  In
`// TODO: stale:01-01-2020 expires:1-1-2021 fix` the text after `expires:` is
no date under the pattern `02-01-2006`, yet the comment is not discarded: the
marker pattern leaves group 4 empty, so the branch that warns about an
invalid expiration date is not reached; the comment yields an annotation with
the default expire date (warn date plus 90 days), the clause becomes part of
the message, and the only record logged is the debug record.  The sibling
input `expires:99-99-9999`, whose text has the form `dd-dd-dddd`, reaches
that branch: a warning and no annotation. -/
theorem loose_expires_kept :
    Parse layoutDMY "1-1-2021".toList = .error .bad
    ∧ FindStringSubmatch looseExpiresComment.Text
        = some ⟨"TODO".toList, [], "01-01-2020".toList, [], "expires:1-1-2021 fix".toList⟩
    ∧ scanComment (applyDefaults noFlags) "a.go" exampleFileSet ⟨[], [⟨[looseExpiresComment]⟩]⟩
          looseExpiresComment
        = (some { File := "a.go", Line := 6, Declaration := "<unknown>",
                  WarnDate := Date 2020 1 1 0 0 0 0,
                  ExpireDate := some (Date 2020 3 31 0 0 0 0),
                  Message := "expires:1-1-2021 fix".toList },
           [⟨.Debug, "Annotation found",
             [("file", "a.go"), ("line", "6"), ("decl", "<unknown>")]⟩])
    ∧ (Date 2020 3 31 0 0 0 0).ns = (Date 2020 1 1 0 0 0 0).ns + 90 * nsPerDay
    ∧ scanComment (applyDefaults noFlags) "a.go" exampleFileSet ⟨[], [⟨[badExpiresComment]⟩]⟩
          badExpiresComment
        = (none, [⟨.Warn, "Invalid expiration date format",
            [("input", "99-99-9999"), ("expected", "02-01-2006")]⟩]) := by
  decide

/-- The branch of `scanFile` for an invalid expiration date (lines 143-147):
when the marker pattern has matched an `expires:` clause and its date text
fails to parse, the comment is discarded with a warning, and the annotations
are those of the file without the comment. -/
theorem scanFile_bad_expires (argsData : Args) (path : String) (fs : FileSet)
    (decls : List Decl) (before after : List CommentGroup) (pre post : List Comment)
    (c : Comment) (m : Submatch) (warn : Time) (err : ParseError)
    (hm : FindStringSubmatch c.Text = some m)
    (hw : Parse argsData.DateFormat m.warn = .ok warn)
    (hclause : m.expires ≠ [])
    (he : Parse argsData.DateFormat m.expires = .error err) :
    scanComment argsData path fs ⟨decls, before ++ ⟨pre ++ c :: post⟩ :: after⟩ c
        = (none, [⟨.Warn, "Invalid expiration date format",
            [("input", String.mk m.expires), ("expected", layoutText argsData.DateFormat)]⟩])
    ∧ Except.map ScanState.results
          (scanFile argsData path fs (.ok ⟨decls, before ++ ⟨pre ++ c :: post⟩ :: after⟩))
        = Except.map ScanState.results
          (scanFile argsData path fs (.ok ⟨decls, before ++ ⟨pre ++ post⟩ :: after⟩)) := by
  have hc : scanComment argsData path fs ⟨decls, before ++ ⟨pre ++ c :: post⟩ :: after⟩ c
      = (none, [⟨.Warn, "Invalid expiration date format",
          [("input", String.mk m.expires), ("expected", layoutText argsData.DateFormat)]⟩]) := by
    simp only [scanComment, hm, hw, hclause, ne_eq, not_false_eq_true, if_true, he]
  exact ⟨hc, scanFile_drop _ _ _ _ _ _ _ _ _ (by rw [hc])⟩

/-- The discard branch at `// TODO: stale:01-01-2020 expires:99-99-9999 fix`
standing next to the example comment. -/
theorem scanFile_bad_expires_witness :
    FindStringSubmatch badExpiresComment.Text
        = some ⟨"TODO".toList, [], "01-01-2020".toList, "99-99-9999".toList, "fix".toList⟩
    ∧ Parse (applyDefaults noFlags).DateFormat "01-01-2020".toList = .ok (Date 2020 1 1 0 0 0 0)
    ∧ Parse (applyDefaults noFlags).DateFormat "99-99-9999".toList = .error .monthOutOfRange
    ∧ Except.map ScanState.results
          (scanFile (applyDefaults noFlags) "a.go" exampleFileSet
            (.ok ⟨[], [] ++ ⟨[] ++ badExpiresComment :: [⟨50, exampleText⟩]⟩ :: []⟩))
        = Except.map ScanState.results
          (scanFile (applyDefaults noFlags) "a.go" exampleFileSet
            (.ok ⟨[], [] ++ ⟨[] ++ [⟨50, exampleText⟩]⟩ :: []⟩)) :=
  have h := scanFile_bad_expires (applyDefaults noFlags) "a.go" exampleFileSet [] [] [] []
    [⟨50, exampleText⟩] badExpiresComment
    ⟨"TODO".toList, [], "01-01-2020".toList, "99-99-9999".toList, "fix".toList⟩
    (Date 2020 1 1 0 0 0 0) .monthOutOfRange (by decide) (by decide) (by decide) (by decide)
  ⟨by decide, by decide, by decide, h.2⟩

/-- C6.  A comment that matches the marker pattern but whose warn date is not
a valid date is dropped with a warning: `scanFile` returns no error, produces
no annotation for the comment, and returns for the other comments of the file
exactly the annotations, in the same order, that it returns for the file
without the comment. -/
theorem scanFile_bad_warn (argsData : Args) (path : String) (fs : FileSet)
    (decls : List Decl) (before after : List CommentGroup) (pre post : List Comment)
    (c : Comment) (m : Submatch) (err : ParseError)
    (hm : FindStringSubmatch c.Text = some m)
    (hw : Parse argsData.DateFormat m.warn = .error err) :
    (∃ st, scanFile argsData path fs (.ok ⟨decls, before ++ ⟨pre ++ c :: post⟩ :: after⟩)
        = .ok st)
    ∧ scanComment argsData path fs ⟨decls, before ++ ⟨pre ++ c :: post⟩ :: after⟩ c
        = (none, [⟨.Warn, "Invalid stale date format",
            [("input", String.mk m.warn), ("expected", layoutText argsData.DateFormat)]⟩])
    ∧ Except.map ScanState.results
          (scanFile argsData path fs (.ok ⟨decls, before ++ ⟨pre ++ c :: post⟩ :: after⟩))
        = Except.map ScanState.results
          (scanFile argsData path fs (.ok ⟨decls, before ++ ⟨pre ++ post⟩ :: after⟩)) := by
  have hc : scanComment argsData path fs ⟨decls, before ++ ⟨pre ++ c :: post⟩ :: after⟩ c
      = (none, [⟨.Warn, "Invalid stale date format",
          [("input", String.mk m.warn), ("expected", layoutText argsData.DateFormat)]⟩]) := by
    simp only [scanComment, hm, hw]
  exact ⟨⟨_, scanFile_ok _ _ _ _⟩, hc, scanFile_drop _ _ _ _ _ _ _ _ _ (by rw [hc])⟩

/-- Witness for C6: `// TODO: stale:99-99-9999 drop` followed, in the body of
`f`, by the example comment, which is still reported. -/
theorem scanFile_bad_warn_witness :
    FindStringSubmatch badWarnComment.Text
        = some ⟨"TODO".toList, [], "99-99-9999".toList, [], "drop".toList⟩
    ∧ Parse (applyDefaults noFlags).DateFormat "99-99-9999".toList = .error .monthOutOfRange
    ∧ Except.map ScanState.results
          (scanFile (applyDefaults noFlags) "a.go" exampleFileSet
            (.ok ⟨[.FuncDecl 30 200 "f"], [] ++ ⟨[] ++ badWarnComment :: [⟨50, exampleText⟩]⟩ :: []⟩))
        = Except.map ScanState.results
          (scanFile (applyDefaults noFlags) "a.go" exampleFileSet
            (.ok ⟨[.FuncDecl 30 200 "f"], [] ++ ⟨[] ++ [⟨50, exampleText⟩]⟩ :: []⟩))
    ∧ Except.map ScanState.results
          (scanFile (applyDefaults noFlags) "a.go" exampleFileSet
            (.ok ⟨[.FuncDecl 30 200 "f"], [] ++ ⟨[] ++ [⟨50, exampleText⟩]⟩ :: []⟩))
        = .ok [exampleEntry] :=
  have h := scanFile_bad_warn (applyDefaults noFlags) "a.go" exampleFileSet [.FuncDecl 30 200 "f"]
    [] [] [] [⟨50, exampleText⟩] badWarnComment
    ⟨"TODO".toList, [], "99-99-9999".toList, [], "drop".toList⟩ .monthOutOfRange
    (by decide) (by decide)
  ⟨by decide, by decide, h.2.2, by decide⟩

/-! ## The marker pattern on rendered markers -/

theorem utod_toNat : ∀ k : Fin 10, (utod k.val).toNat = 48 + k.val := by decide

theorem isDigit_utod (k : Nat) (h : k < 10) : isDigit (utod k) = true := by
  have := utod_toNat ⟨k, h⟩
  simp only at this
  simp only [isDigit, this, Bool.and_eq_true, decide_eq_true_eq]
  omega

theorem digitVal_utod (k : Nat) (h : k < 10) : digitVal (utod k) = k := by
  have := utod_toNat ⟨k, h⟩
  simp only at this
  simp [digitVal, this]

theorem appendInt_two (x : Int) (h0 : 0 ≤ x) (h1 : x < 100) :
    appendInt x 2 = [utod (x.toNat / 10), utod (x.toNat % 10)] := by
  obtain ⟨n, rfl⟩ := Int.eq_ofNat_of_zero_le h0
  have hn : n < 100 := by omega
  simp [appendInt, hn]

theorem appendInt_four (x : Int) (h0 : 0 ≤ x) (h1 : x < 10000) :
    appendInt x 4 = [utod (x.toNat / 1000), utod (x.toNat / 100 % 10),
      utod (x.toNat / 10 % 10), utod (x.toNat % 10)] := by
  obtain ⟨n, rfl⟩ := Int.eq_ofNat_of_zero_le h0
  have hn : n < 10000 := by omega
  simp [appendInt, hn]

theorem daysIn_le (m y : Int) (hm : 1 ≤ m ∧ m ≤ 12) : daysIn m y ≤ 31 := by
  unfold daysIn
  split
  · omega
  · have : m = 1 ∨ m = 2 ∨ m = 3 ∨ m = 4 ∨ m = 5 ∨ m = 6 ∨ m = 7 ∨ m = 8 ∨ m = 9 ∨ m = 10
        ∨ m = 11 ∨ m = 12 := by omega
    rcases this with h | h | h | h | h | h | h | h | h | h | h | h <;> subst h <;> decide

/-- The text of a valid date under `02-01-2006`, digit by digit. -/
theorem formatCivil_DMY (c : Civil) (hc : c.valid) :
    formatCivil layoutDMY c
      = [utod (c.day.toNat / 10), utod (c.day.toNat % 10), '-',
         utod (c.month.toNat / 10), utod (c.month.toNat % 10), '-',
         utod (c.year.toNat / 1000), utod (c.year.toNat / 100 % 10),
         utod (c.year.toNat / 10 % 10), utod (c.year.toNat % 10)] := by
  obtain ⟨hy0, hy1, hm0, hm1, hd0, hd1⟩ := hc
  have := daysIn_le c.month c.year ⟨hm0, hm1⟩
  simp only [formatCivil, layoutDMY]
  rw [appendInt_two c.day (by omega) (by omega), appendInt_two c.month (by omega) (by omega),
    appendInt_four c.year hy0 (by omega)]
  rfl

theorem atoi_four (a b c d : Char) (ha : isDigit a = true) (hb : isDigit b = true)
    (hc : isDigit c = true) (hd : isDigit d = true) :
    atoi [a, b, c, d]
      = .ok (((digitVal a * 10 + digitVal b) * 10 + digitVal c) * 10 + digitVal d) := by
  have h1 : a ≠ '-' := by rintro rfl; revert ha; decide
  have h2 : a ≠ '+' := by rintro rfl; revert ha; decide
  unfold atoi
  split
  · rename_i heq
    split at heq
    · rename_i h; simp only [List.cons.injEq] at h; exact absurd h.1 h1
    · rename_i h; simp only [List.cons.injEq] at h; exact absurd h.1 h2
    · simp only [Prod.mk.injEq] at heq
      obtain ⟨rfl, rfl⟩ := heq
      simp [leadingInt, ha, hb, hc, hd]

/-- Go `time.Parse` reads back what a valid date looks like under `02-01-2006`. -/
theorem Parse_formatCivil_DMY (c : Civil) (hc : c.valid) :
    Parse layoutDMY (formatCivil layoutDMY c) = .ok (Date c.year c.month c.day 0 0 0 0) := by
  rw [formatCivil_DMY c hc]
  obtain ⟨hy0, hy1, hm0, hm1, hd0, hd1⟩ := hc
  have hd31 := daysIn_le c.month c.year ⟨hm0, hm1⟩
  obtain ⟨y, hy⟩ := Int.eq_ofNat_of_zero_le hy0
  obtain ⟨mo, hmo⟩ := Int.eq_ofNat_of_zero_le (by omega : (0 : Int) ≤ c.month)
  obtain ⟨dd, hdd⟩ := Int.eq_ofNat_of_zero_le (by omega : (0 : Int) ≤ c.day)
  have hyv : ((((y / 1000 : Nat) : Int) * 10 + ((y / 100 % 10 : Nat) : Int)) * 10
      + ((y / 10 % 10 : Nat) : Int)) * 10 + ((y % 10 : Nat) : Int) = c.year := by omega
  have hmv : ((mo / 10 : Nat) : Int) * 10 + ((mo % 10 : Nat) : Int) = c.month := by omega
  have hdv : ((dd / 10 : Nat) : Int) * 10 + ((dd % 10 : Nat) : Int) = c.day := by omega
  simp only [hy, hmo, hdd, Int.toNat_ofNat] at *
  have e1 := isDigit_utod (dd / 10) (by omega)
  have e2 := isDigit_utod (dd % 10) (by omega)
  have e3 := isDigit_utod (mo / 10) (by omega)
  have e4 := isDigit_utod (mo % 10) (by omega)
  have e5 := isDigit_utod (y / 1000) (by omega)
  have e6 := isDigit_utod (y / 100 % 10) (by omega)
  have e7 := isDigit_utod (y / 10 % 10) (by omega)
  have e8 := isDigit_utod (y % 10) (by omega)
  have v1 := digitVal_utod (dd / 10) (by omega)
  have v2 := digitVal_utod (dd % 10) (by omega)
  have v3 := digitVal_utod (mo / 10) (by omega)
  have v4 := digitVal_utod (mo % 10) (by omega)
  have v5 := digitVal_utod (y / 1000) (by omega)
  have v6 := digitVal_utod (y / 100 % 10) (by omega)
  have v7 := digitVal_utod (y / 10 % 10) (by omega)
  have v8 := digitVal_utod (y % 10) (by omega)
  have hmr : ¬ ((mo : Int) ≤ 0 ∨ 12 < (mo : Int)) := by omega
  have hdr : ¬ ((dd : Int) < 1 ∨ daysIn (mo : Int) (y : Int) < (dd : Int)) := by omega
  have hmn : ¬ ((mo : Int) < 0) := by omega
  have hdn : ¬ ((dd : Int) < 0) := by omega
  have hyw : ((((y : Int) / 1000) * 10 + (y : Int) / 100 % 10) * 10 + (y : Int) / 10 % 10) * 10
      + (y : Int) % 10 = y := by omega
  have hmw : (mo : Int) / 10 * 10 + (mo : Int) % 10 = mo := by omega
  have hdw : (dd : Int) / 10 * 10 + (dd : Int) % 10 = dd := by omega
  simp [Parse, layoutDMY, parseChunks, getnum, e1, e2, e3, e4, e5, skip, skipLoop,
    atoi_four _ _ _ _ e5 e6 e7 e8, v1, v2, v3, v4, v5, v6, v7, v8, hyw, hmw, hdw]
  have hmr2 : ¬ (mo = 0 ∨ 12 < mo) := by omega
  rw [if_neg hmr2]
  simp only [hmn, hdn, hdr, if_false]

theorem isReSpace_of_isDigit (c : Char) (h : isDigit c = true) : isReSpace c = false := by
  cases hs : isReSpace c with
  | false => rfl
  | true =>
    exfalso
    simp only [isReSpace, Bool.or_eq_true, decide_eq_true_eq] at hs
    rcases hs with (((rfl | rfl) | rfl) | rfl) | rfl <;> revert h <;> decide

theorem isSpace_of_isReSpace (c : Char) (h : isReSpace c = true) : isSpace c = true := by
  simp only [isReSpace, Bool.or_eq_true, decide_eq_true_eq] at h
  rcases h with (((rfl | rfl) | rfl) | rfl) | rfl <;> decide

theorem litI_anyCase (pat kind rest : List Char) (h : anyCase pat kind = true) :
    litI pat (kind ++ rest) = some (kind, rest) := by
  induction pat generalizing kind with
  | nil =>
    cases kind with
    | nil => simp [litI]
    | cons c cs => simp [anyCase] at h
  | cons p ps ih =>
    cases kind with
    | nil => simp [anyCase] at h
    | cons c cs =>
      simp only [anyCase, Bool.and_eq_true, Bool.or_eq_true, beq_iff_eq] at h
      have hf : foldMatch p c = true := by
        rcases h.1 with rfl | rfl <;> simp [foldMatch]
      have ih2 := ih cs h.2
      simp only [List.cons_append, litI, hf, if_true]
      show (match litI ps (cs ++ rest) with
        | some (m, r) => some (c :: m, r)
        | none => none) = _
      rw [ih2]

theorem anyCase_refl (pat : List Char) : anyCase pat pat = true := by
  induction pat with
  | nil => rfl
  | cons p ps ih => simp [anyCase, ih]

theorem litI_self (pat rest : List Char) : litI pat (pat ++ rest) = some (pat, rest) :=
  litI_anyCase pat pat rest (anyCase_refl pat)

theorem reDate_formatCivil (c : Civil) (hc : c.valid) (rest : List Char) :
    reDate (formatCivil layoutDMY c ++ rest) = some (formatCivil layoutDMY c, rest) := by
  rw [formatCivil_DMY c hc]
  obtain ⟨hy0, hy1, hm0, hm1, hd0, hd1⟩ := hc
  have hd31 := daysIn_le c.month c.year ⟨hm0, hm1⟩
  have e1 := isDigit_utod (c.day.toNat / 10) (by omega)
  have e2 := isDigit_utod (c.day.toNat % 10) (by omega)
  have e3 := isDigit_utod (c.month.toNat / 10) (by omega)
  have e4 := isDigit_utod (c.month.toNat % 10) (by omega)
  have e5 := isDigit_utod (c.year.toNat / 1000) (by omega)
  have e6 := isDigit_utod (c.year.toNat / 100 % 10) (by omega)
  have e7 := isDigit_utod (c.year.toNat / 10 % 10) (by omega)
  have e8 := isDigit_utod (c.year.toNat % 10) (by omega)
  simp [reDate, e1, e2, e3, e4, e5, e6, e7, e8]

/-- The text of a valid date starts with a digit. -/
theorem formatCivil_head (c : Civil) (hc : c.valid) :
    ∃ d ds, formatCivil layoutDMY c = d :: ds ∧ isDigit d = true := by
  rw [formatCivil_DMY c hc]
  obtain ⟨hy0, hy1, hm0, hm1, hd0, hd1⟩ := hc
  have hd31 := daysIn_le c.month c.year ⟨hm0, hm1⟩
  exact ⟨_, _, rfl, isDigit_utod _ (by omega)⟩

theorem dropWhile_isReSpace_formatCivil (c : Civil) (hc : c.valid) (rest : List Char) :
    (formatCivil layoutDMY c ++ rest).dropWhile isReSpace = formatCivil layoutDMY c ++ rest := by
  obtain ⟨d, ds, hds, hd⟩ := formatCivil_head c hc
  rw [hds, List.cons_append, List.dropWhile_cons_of_neg]
  rw [isReSpace_of_isDigit d hd]
  simp

theorem reMessage_render (message : Option (List Char))
    (hmsg : ∀ msg, message = some msg → plainMessage msg) :
    reMessage (renderMessage message) = message.getD [] := by
  cases message with
  | none => rfl
  | some msg =>
    obtain ⟨hnl, hhead, -⟩ := hmsg msg rfl
    have hsp : isReSpace ' ' = true := by decide
    simp only [renderMessage, reMessage, hsp, if_true, Option.getD_some]
    have hdrop : msg.dropWhile isReSpace = msg := by
      cases msg with
      | nil => rfl
      | cons c cs =>
        have hc := hhead c rfl
        have : isReSpace c = false := by
          cases h : isReSpace c with
          | false => rfl
          | true => rw [isSpace_of_isReSpace c h] at hc; cases hc
        rw [List.dropWhile_cons_of_neg (by simp [this])]
    rw [hdrop]
    apply List.takeWhile_eq_self_iff.mpr
    intro c hc
    have : c ≠ '\n' := fun h => hnl (h ▸ hc)
    simp [this]

theorem reExpires_render (c : Civil) (hc : c.valid) (rest : List Char) :
    reExpires ([' ', 'e', 'x', 'p', 'i', 'r', 'e', 's', ':'] ++ (formatCivil layoutDMY c ++ rest))
      = some (formatCivil layoutDMY c, rest) := by
  have hsp : isReSpace ' ' = true := by decide
  have hdrop : (['e', 'x', 'p', 'i', 'r', 'e', 's', ':'] ++ (formatCivil layoutDMY c ++ rest)).dropWhile
      isReSpace = ['e', 'x', 'p', 'i', 'r', 'e', 's', ':'] ++ (formatCivil layoutDMY c ++ rest) := by
    rw [List.cons_append, List.dropWhile_cons_of_neg (by decide)]
  show reExpires (' ' :: (['e', 'x', 'p', 'i', 'r', 'e', 's', ':']
    ++ (formatCivil layoutDMY c ++ rest))) = _
  simp only [reExpires, hsp, if_true, hdrop, litI_self, dropWhile_isReSpace_formatCivil c hc,
    reDate_formatCivil c hc]

theorem renderMarker_eq (kind : List Char) (tag : Option (List Char)) (warn expire : Civil)
    (message : Option (List Char)) :
    renderMarker kind tag warn expire message
      = '/' :: '/' :: ' ' :: (kind ++ (renderTag tag ++ renderTail warn expire message)) := by
  simp [renderMarker, renderTail]

theorem reAfterTag_render (kind tag : List Char) (warn expire : Civil) (hw : warn.valid)
    (he : expire.valid) (message : Option (List Char))
    (hmsg : ∀ msg, message = some msg → plainMessage msg) :
    reAfterTag kind tag (renderTail warn expire message)
      = some ⟨kind, tag, formatCivil layoutDMY warn, formatCivil layoutDMY expire,
          message.getD []⟩ := by
  have hdrop : ∀ rest : List Char,
      ([' ', 's', 't', 'a', 'l', 'e', ':'] ++ rest).dropWhile isReSpace
        = ['s', 't', 'a', 'l', 'e', ':'] ++ rest := by
    intro rest
    rw [List.cons_append, List.dropWhile_cons_of_pos (by decide), List.cons_append,
      List.dropWhile_cons_of_neg (by decide)]
  show reAfterTag kind tag (':' :: ([' ', 's', 't', 'a', 'l', 'e', ':'] ++ _)) = _
  simp only [reAfterTag, hdrop, litI_self, dropWhile_isReSpace_formatCivil warn hw,
    reDate_formatCivil warn hw, reExpires_render expire he, reMessage_render message hmsg]

theorem anyCase_keyword_head (kind : List Char)
    (hk : anyCase ['t', 'o', 'd', 'o'] kind = true ∨ anyCase ['f', 'i', 'x', 'm', 'e'] kind = true) :
    ∃ c cs, kind = c :: cs ∧ isReSpace c = false
      ∧ (anyCase ['f', 'i', 'x', 'm', 'e'] kind = true → foldMatch 't' c = false) := by
  cases kind with
  | nil => simp [anyCase] at hk
  | cons c cs =>
    refine ⟨c, cs, rfl, ?_, ?_⟩
    · simp only [anyCase, Bool.and_eq_true, Bool.or_eq_true, beq_iff_eq] at hk
      rcases hk with ⟨rfl | rfl, -⟩ | ⟨rfl | rfl, -⟩ <;> decide
    · intro h
      simp only [anyCase, Bool.and_eq_true, Bool.or_eq_true, beq_iff_eq] at h
      rcases h with ⟨rfl | rfl, -⟩ <;> decide

theorem reKind_anyCase (kind rest : List Char)
    (hk : anyCase ['t', 'o', 'd', 'o'] kind = true ∨ anyCase ['f', 'i', 'x', 'm', 'e'] kind = true) :
    reKind (kind ++ rest) = some (kind, rest) := by
  unfold reKind
  by_cases h : anyCase ['t', 'o', 'd', 'o'] kind = true
  · rw [litI_anyCase _ _ _ h]
  · have h2 : anyCase ['f', 'i', 'x', 'm', 'e'] kind = true := hk.resolve_left h
    obtain ⟨c, cs, rfl, -, hf⟩ := anyCase_keyword_head _ (Or.inr h2)
    have hf2 := hf h2
    have hnone : litI ['t', 'o', 'd', 'o'] (c :: cs ++ rest) = none := by
      simp [litI, hf2]
    rw [hnone]
    exact litI_anyCase _ _ _ h2

theorem reTag_render (t rest : List Char) (ht : ')' ∉ t) :
    reTag ('(' :: (t ++ ')' :: rest)) = some ('(' :: t ++ [')'], rest) := by
  have hall : ∀ a ∈ t, (fun c : Char => c != ')') a = true := by
    intro a ha
    have : a ≠ ')' := fun h => ht (h ▸ ha)
    simp [this]
  have hd : (t ++ ')' :: rest).dropWhile (fun c => c != ')') = ')' :: rest := by
    rw [List.dropWhile_append_of_pos hall, List.dropWhile_cons_of_neg (by simp)]
  have htk : (t ++ ')' :: rest).takeWhile (fun c => c != ')') = t := by
    rw [List.takeWhile_append_of_pos hall, List.takeWhile_cons_of_neg (by simp)]
    simp
  simp only [reTag, hd, htk]

/-- The marker pattern recovers the fields of a rendered marker. -/
theorem FindStringSubmatch_render (kind : List Char) (tag : Option (List Char))
    (warn expire : Civil) (message : Option (List Char))
    (hk : anyCase ['t', 'o', 'd', 'o'] kind = true ∨ anyCase ['f', 'i', 'x', 'm', 'e'] kind = true)
    (ht : ∀ t, tag = some t → ')' ∉ t) (hw : warn.valid) (he : expire.valid)
    (hmsg : ∀ msg, message = some msg → plainMessage msg) :
    FindStringSubmatch (renderMarker kind tag warn expire message)
      = some ⟨kind, renderTag tag, formatCivil layoutDMY warn, formatCivil layoutDMY expire,
          message.getD []⟩ := by
  obtain ⟨c, cs, hkc, hsp, -⟩ := anyCase_keyword_head kind hk
  have hdrop : ∀ rest : List Char, (' ' :: (kind ++ rest)).dropWhile isReSpace = kind ++ rest := by
    intro rest
    rw [List.dropWhile_cons_of_pos (by decide), hkc, List.cons_append,
      List.dropWhile_cons_of_neg (by simp [hsp])]
  rw [renderMarker_eq]
  simp only [FindStringSubmatch, reMatchHere, hdrop, reKind_anyCase kind _ hk]
  cases tag with
  | none =>
    have htag : reTag (renderTail warn expire message) = none := by
      simp [reTag, renderTail]
    simp only [renderTag, List.nil_append, htag,
      reAfterTag_render kind [] warn expire hw he message hmsg]
  | some t =>
    have hshape : renderTag (some t) ++ renderTail warn expire message
        = '(' :: (t ++ ')' :: renderTail warn expire message) := by
      simp [renderTag]
    rw [hshape]
    simp only [reTag_render t _ (ht t rfl),
      reAfterTag_render kind ('(' :: t ++ [')']) warn expire hw he message hmsg, renderTag]

theorem TrimSpace_plain (msg : List Char) (h : plainMessage msg) : TrimSpace msg = msg := by
  obtain ⟨-, hhead, hlast⟩ := h
  unfold TrimSpace
  have h1 : msg.dropWhile isSpace = msg := by
    cases msg with
    | nil => rfl
    | cons c cs => rw [List.dropWhile_cons_of_neg (by simp [hhead c rfl])]
  rw [h1]
  have h2 : msg.reverse.dropWhile isSpace = msg.reverse := by
    cases hr : msg.reverse with
    | nil => rfl
    | cons c cs =>
      have hl : msg.getLast? = some c := by
        rw [List.getLast?_eq_head?_reverse, hr]
        rfl
      rw [List.dropWhile_cons_of_neg (by simp [hlast c hl])]
  rw [h2, List.reverse_reverse]

/-! ### Comments without a keyword -/

theorem litI_keywordAt (pat s k r : List Char) (hp : ∀ p ∈ pat, p ≠ 's' ∧ p ≠ 'k')
    (h : litI pat s = some (k, r)) : keywordAt pat s = true := by
  induction pat generalizing s k r with
  | nil => rfl
  | cons p ps ih =>
    cases s with
    | nil => simp [litI] at h
    | cons c cs =>
      simp only [litI] at h
      split at h
      · rename_i hf
        split at h
        · rename_i m r2 hrec
          have hrest := ih cs m r2 (fun q hq => hp q (List.mem_cons_of_mem _ hq)) hrec
          have hps := hp p (List.mem_cons_self _ _)
          have hc : c = p ∨ c = p.toUpper := by
            simp only [foldMatch, Bool.or_eq_true, decide_eq_true_eq, Bool.and_eq_true] at hf
            rcases hf with ((h1 | h1) | h1) | h1
            · exact Or.inl h1
            · exact Or.inr h1
            · exact absurd h1.1 hps.1
            · exact absurd h1.1 hps.2
          simp only [keywordAt, Bool.and_eq_true, Bool.or_eq_true, beq_iff_eq]
          exact ⟨hc, hrest⟩
        · simp at h
      · simp at h

theorem reKind_keywordAt (s k r : List Char) (h : reKind s = some (k, r)) :
    keywordAt ['t', 'o', 'd', 'o'] s = true ∨ keywordAt ['f', 'i', 'x', 'm', 'e'] s = true := by
  unfold reKind at h
  split at h
  · rename_i x hx
    exact Or.inl (litI_keywordAt _ _ x.1 x.2 (by decide) hx)
  · exact Or.inr (litI_keywordAt _ _ _ _ (by decide) h)

theorem containsKeyword_of_keywordAt (pat s : List Char) (h : keywordAt pat s = true) :
    containsKeyword pat s = true := by
  cases s with
  | nil => exact h
  | cons c cs => simp [containsKeyword, h]

theorem containsKeyword_append (pat pre s : List Char) (h : containsKeyword pat s = true) :
    containsKeyword pat (pre ++ s) = true := by
  induction pre with
  | nil => exact h
  | cons c cs ih => simp [containsKeyword, ih]

theorem reMatchHere_some (s : List Char) (m : Submatch) (h : reMatchHere s = some m) :
    containsKeyword ['t', 'o', 'd', 'o'] s = true
      ∨ containsKeyword ['f', 'i', 'x', 'm', 'e'] s = true := by
  unfold reMatchHere at h
  split at h
  · rename_i r
    split at h
    · rename_i k r2 hk
      have hsplit : '/' :: '/' :: r
          = ('/' :: '/' :: r.takeWhile isReSpace) ++ r.dropWhile isReSpace := by
        simp
      rw [hsplit]
      rcases reKind_keywordAt _ _ _ hk with hc | hc
      · exact Or.inl (containsKeyword_append _ _ _ (containsKeyword_of_keywordAt _ _ hc))
      · exact Or.inr (containsKeyword_append _ _ _ (containsKeyword_of_keywordAt _ _ hc))
    · simp at h
  · simp at h

/-- A comment the marker pattern matches contains `todo` or `fixme` in some
letter case. -/
theorem FindStringSubmatch_some (s : List Char) (m : Submatch)
    (h : FindStringSubmatch s = some m) :
    containsKeyword ['t', 'o', 'd', 'o'] s = true
      ∨ containsKeyword ['f', 'i', 'x', 'm', 'e'] s = true := by
  induction s with
  | nil => simp [FindStringSubmatch] at h
  | cons c cs ih =>
    simp only [FindStringSubmatch] at h
    split at h
    · rename_i m2 hm2
      exact reMatchHere_some _ _ hm2
    · rcases ih h with h1 | h1
      · exact Or.inl (containsKeyword_append _ [c] _ h1)
      · exact Or.inr (containsKeyword_append _ [c] _ h1)

/-- C7. A marker comment `// <kind>(<tag>): stale:<warn> expires:<expire> <message>`,
with the keyword TODO or FIXME in any letter case, an optional tag, two
valid dates and an optional one-line message without surrounding white space,
is parsed by `scanFile` into exactly one annotation, whose warn date, expire
date and message are the rendered ones (the empty text when there is no
message).  A comment that contains neither keyword (in any letter case) yields
no annotation. -/
theorem scanFile_roundtrip (argsData : Args) (path : String) (fs : FileSet) (decls : List Decl)
    (pos : Int) (kind : List Char) (tag : Option (List Char)) (warn expire : Civil)
    (message : Option (List Char)) (other : List Char)
    (hfmt : argsData.DateFormat = layoutDMY)
    (hk : anyCase ['t', 'o', 'd', 'o'] kind = true ∨ anyCase ['f', 'i', 'x', 'm', 'e'] kind = true)
    (ht : ∀ t, tag = some t → ')' ∉ t) (hw : warn.valid) (he : expire.valid)
    (hmsg : ∀ msg, message = some msg → plainMessage msg)
    (hother : containsKeyword ['t', 'o', 'd', 'o'] other = false
      ∧ containsKeyword ['f', 'i', 'x', 'm', 'e'] other = false) :
    Except.map ScanState.results
        (scanFile argsData path fs
          (.ok ⟨decls, [⟨[⟨pos, renderMarker kind tag warn expire message⟩]⟩]⟩))
      = .ok [{ File := path, Line := fs.Line pos,
               Declaration := findDecl pos ⟨decls, []⟩,
               WarnDate := Date warn.year warn.month warn.day 0 0 0 0,
               ExpireDate := some (Date expire.year expire.month expire.day 0 0 0 0),
               Message := message.getD [] }]
    ∧ Except.map ScanState.results (scanFile argsData path fs (.ok ⟨decls, [⟨[⟨pos, other⟩]⟩]⟩))
      = .ok [] := by
  constructor
  · have hfind := FindStringSubmatch_render kind tag warn expire message hk ht hw he hmsg
    have hne : formatCivil layoutDMY expire ≠ [] := by
      obtain ⟨d, ds, hds, -⟩ := formatCivil_head expire he
      rw [hds]
      exact List.cons_ne_nil _ _
    have htrim : TrimSpace (message.getD []) = message.getD [] := by
      cases message with
      | none => rfl
      | some msg => exact TrimSpace_plain msg (hmsg msg rfl)
    rw [scanFile_ok]
    simp only [Except.map, List.flatMap_cons, List.flatMap_nil, List.append_nil,
      List.filterMap_cons, List.filterMap_nil, scanComment, hfind, hfmt,
      Parse_formatCivil_DMY warn hw, Parse_formatCivil_DMY expire he, ne_eq, hne,
      not_false_eq_true, if_true, annotate, htrim]
    rfl
  · have hnone : FindStringSubmatch other = none := by
      cases h : FindStringSubmatch other with
      | none => rfl
      | some m =>
        rcases FindStringSubmatch_some other m h with h1 | h1
        · rw [hother.1] at h1; cases h1
        · rw [hother.2] at h1; cases h1
    rw [scanFile_ok]
    simp only [Except.map, List.flatMap_cons, List.flatMap_nil, List.append_nil,
      List.filterMap_cons, List.filterMap_nil, scanComment, hnone]

/-- Witness for C7: `// FixMe(bob): stale:01-01-2020 expires:31-12-2021 clean up`,
and a comment without keyword. -/
theorem scanFile_roundtrip_witness :
    renderMarker "FixMe".toList (some "bob".toList) ⟨2020, 1, 1⟩ ⟨2021, 12, 31⟩
        (some "clean up".toList)
      = "// FixMe(bob): stale:01-01-2020 expires:31-12-2021 clean up".toList
    ∧ anyCase ['f', 'i', 'x', 'm', 'e'] "FixMe".toList = true
    ∧ ')' ∉ "bob".toList
    ∧ Civil.valid ⟨2020, 1, 1⟩ ∧ Civil.valid ⟨2021, 12, 31⟩
    ∧ plainMessage "clean up".toList
    ∧ containsKeyword ['t', 'o', 'd', 'o'] "// see the fix below".toList = false
    ∧ containsKeyword ['f', 'i', 'x', 'm', 'e'] "// see the fix below".toList = false
    ∧ Except.map ScanState.results
        (scanFile (applyDefaults noFlags) "a.go" exampleFileSet
          (.ok ⟨threeDecls, [⟨[⟨50, renderMarker "FixMe".toList (some "bob".toList) ⟨2020, 1, 1⟩
            ⟨2021, 12, 31⟩ (some "clean up".toList)⟩]⟩]⟩))
      = .ok [{ File := "a.go", Line := exampleFileSet.Line 50,
               Declaration := findDecl 50 ⟨threeDecls, []⟩,
               WarnDate := Date 2020 1 1 0 0 0 0,
               ExpireDate := some (Date 2021 12 31 0 0 0 0),
               Message := "clean up".toList }]
    ∧ Except.map ScanState.results
        (scanFile (applyDefaults noFlags) "a.go" exampleFileSet
          (.ok ⟨threeDecls, [⟨[⟨50, "// see the fix below".toList⟩]⟩]⟩))
      = .ok [] :=
  have hv1 : Civil.valid ⟨2020, 1, 1⟩ := by unfold Civil.valid; decide
  have hv2 : Civil.valid ⟨2021, 12, 31⟩ := by unfold Civil.valid; decide
  have hp : plainMessage "clean up".toList := by unfold plainMessage; decide
  have h := scanFile_roundtrip (applyDefaults noFlags) "a.go" exampleFileSet threeDecls 50
    "FixMe".toList (some "bob".toList) ⟨2020, 1, 1⟩ ⟨2021, 12, 31⟩ (some "clean up".toList)
    "// see the fix below".toList rfl (Or.inr (by decide))
    (fun t ht => by cases ht; decide) hv1 hv2 (fun msg hm => by cases hm; exact hp)
    ⟨by decide, by decide⟩
  ⟨by decide, by decide, by decide, hv1, hv2, hp, by decide, by decide, h.1, h.2⟩

/-! ### Markers written in the pattern `2006-01-02` -/

theorem reMatchHere_no_slash (c : Char) (cs : List Char) (h : c ≠ '/') :
    reMatchHere (c :: cs) = none := by
  unfold reMatchHere
  split
  · rename_i heq
    simp only [List.cons.injEq] at heq
    exact absurd heq.1 h
  · rfl

theorem FindStringSubmatch_no_slash (s : List Char) (h : ∀ c ∈ s, c ≠ '/') :
    FindStringSubmatch s = none := by
  induction s with
  | nil => rfl
  | cons c cs ih =>
    simp only [FindStringSubmatch, reMatchHere_no_slash c cs (h c (List.mem_cons_self _ _))]
    exact ih (fun x hx => h x (List.mem_cons_of_mem _ hx))

theorem FindStringSubmatch_cons_none (c : Char) (cs : List Char)
    (h : reMatchHere (c :: cs) = none) :
    FindStringSubmatch (c :: cs) = FindStringSubmatch cs := by
  simp only [FindStringSubmatch, h]

theorem FindStringSubmatch_skip (c : Char) (cs : List Char) (h : c ≠ '/') :
    FindStringSubmatch (c :: cs) = FindStringSubmatch cs :=
  FindStringSubmatch_cons_none c cs (reMatchHere_no_slash c cs h)

theorem formatCivil_YMD (c : Civil) (hc : c.valid) :
    formatCivil layoutYMD c
      = [utod (c.year.toNat / 1000), utod (c.year.toNat / 100 % 10),
         utod (c.year.toNat / 10 % 10), utod (c.year.toNat % 10), '-',
         utod (c.month.toNat / 10), utod (c.month.toNat % 10), '-',
         utod (c.day.toNat / 10), utod (c.day.toNat % 10)] := by
  obtain ⟨hy0, hy1, hm0, hm1, hd0, hd1⟩ := hc
  have := daysIn_le c.month c.year ⟨hm0, hm1⟩
  simp only [formatCivil, layoutYMD]
  rw [appendInt_two c.day (by omega) (by omega), appendInt_two c.month (by omega) (by omega),
    appendInt_four c.year hy0 (by omega)]
  rfl

theorem isDigit_ne (c d : Char) (h : isDigit c = true) (hd : isDigit d = false) : c ≠ d := by
  rintro rfl
  rw [h] at hd
  cases hd

/-- No valid date written as `YYYY-MM-DD` makes a marker the pattern matches. -/
theorem FindStringSubmatch_YMD (c : Civil) (hc : c.valid) :
    FindStringSubmatch
      (['/', '/', ' ', 'T', 'O', 'D', 'O', ':', ' ', 's', 't', 'a', 'l', 'e', ':']
        ++ formatCivil layoutYMD c) = none := by
  rw [formatCivil_YMD c hc]
  obtain ⟨hy0, hy1, hm0, hm1, hd0, hd1⟩ := hc
  have hd31 := daysIn_le c.month c.year ⟨hm0, hm1⟩
  have e1 := isDigit_utod (c.year.toNat / 1000) (by omega)
  have e2 := isDigit_utod (c.year.toNat / 100 % 10) (by omega)
  have e3 := isDigit_utod (c.year.toNat / 10 % 10) (by omega)
  have e4 := isDigit_utod (c.year.toNat % 10) (by omega)
  have e5 := isDigit_utod (c.month.toNat / 10) (by omega)
  have e6 := isDigit_utod (c.month.toNat % 10) (by omega)
  have e7 := isDigit_utod (c.day.toNat / 10) (by omega)
  have e8 := isDigit_utod (c.day.toNat % 10) (by omega)
  have hdash := isDigit_ne _ '-' e3 (by decide)
  have hrest : FindStringSubmatch [utod (c.year.toNat / 1000), utod (c.year.toNat / 100 % 10),
      utod (c.year.toNat / 10 % 10), utod (c.year.toNat % 10), '-',
      utod (c.month.toNat / 10), utod (c.month.toNat % 10), '-',
      utod (c.day.toNat / 10), utod (c.day.toNat % 10)] = none := by
    apply FindStringSubmatch_no_slash
    intro x hx
    simp only [List.mem_cons, List.mem_singleton, List.not_mem_nil, or_false] at hx
    rcases hx with rfl | rfl | rfl | rfl | rfl | rfl | rfl | rfl | rfl | rfl
    all_goals first
      | decide
      | exact isDigit_ne _ '/' (by assumption) (by decide)
  have hsp := isReSpace_of_isDigit _ e1
  have h0 : reMatchHere (['/', '/', ' ', 'T', 'O', 'D', 'O', ':', ' ', 's', 't', 'a', 'l', 'e', ':']
      ++ [utod (c.year.toNat / 1000), utod (c.year.toNat / 100 % 10),
      utod (c.year.toNat / 10 % 10), utod (c.year.toNat % 10), '-',
      utod (c.month.toNat / 10), utod (c.month.toNat % 10), '-',
      utod (c.day.toNat / 10), utod (c.day.toNat % 10)]) = none := by
    simp [reMatchHere, reKind, litI, foldMatch, reTag, reAfterTag, reDate, isReSpace, hdash]
    rw [List.dropWhile_cons_of_neg (by rw [hsp]; decide)]
    simp [hdash]
  have h1 : ∀ cs : List Char, reMatchHere ('/' :: ' ' :: cs) = none := fun _ => rfl
  simp only [List.cons_append, List.nil_append] at h0 ⊢
  rw [FindStringSubmatch_cons_none _ _ h0, FindStringSubmatch_cons_none _ _ (h1 _)]
  repeat rw [FindStringSubmatch_skip _ _ (by decide)]
  exact hrest

/-- Go `time.Parse` reads back what a valid date looks like under `2006-01-02`. -/
theorem Parse_formatCivil_YMD (c : Civil) (hc : c.valid) :
    Parse layoutYMD (formatCivil layoutYMD c) = .ok (Date c.year c.month c.day 0 0 0 0) := by
  rw [formatCivil_YMD c hc]
  obtain ⟨hy0, hy1, hm0, hm1, hd0, hd1⟩ := hc
  have hd31 := daysIn_le c.month c.year ⟨hm0, hm1⟩
  obtain ⟨y, hy⟩ := Int.eq_ofNat_of_zero_le hy0
  obtain ⟨mo, hmo⟩ := Int.eq_ofNat_of_zero_le (by omega : (0 : Int) ≤ c.month)
  obtain ⟨dd, hdd⟩ := Int.eq_ofNat_of_zero_le (by omega : (0 : Int) ≤ c.day)
  have hyv : ((((y / 1000 : Nat) : Int) * 10 + ((y / 100 % 10 : Nat) : Int)) * 10
      + ((y / 10 % 10 : Nat) : Int)) * 10 + ((y % 10 : Nat) : Int) = c.year := by omega
  have hmv : ((mo / 10 : Nat) : Int) * 10 + ((mo % 10 : Nat) : Int) = c.month := by omega
  have hdv : ((dd / 10 : Nat) : Int) * 10 + ((dd % 10 : Nat) : Int) = c.day := by omega
  simp only [hy, hmo, hdd, Int.toNat_ofNat] at *
  have e1 := isDigit_utod (dd / 10) (by omega)
  have e2 := isDigit_utod (dd % 10) (by omega)
  have e3 := isDigit_utod (mo / 10) (by omega)
  have e4 := isDigit_utod (mo % 10) (by omega)
  have e5 := isDigit_utod (y / 1000) (by omega)
  have e6 := isDigit_utod (y / 100 % 10) (by omega)
  have e7 := isDigit_utod (y / 10 % 10) (by omega)
  have e8 := isDigit_utod (y % 10) (by omega)
  have v1 := digitVal_utod (dd / 10) (by omega)
  have v2 := digitVal_utod (dd % 10) (by omega)
  have v3 := digitVal_utod (mo / 10) (by omega)
  have v4 := digitVal_utod (mo % 10) (by omega)
  have v5 := digitVal_utod (y / 1000) (by omega)
  have v6 := digitVal_utod (y / 100 % 10) (by omega)
  have v7 := digitVal_utod (y / 10 % 10) (by omega)
  have v8 := digitVal_utod (y % 10) (by omega)
  have hmr : ¬ ((mo : Int) ≤ 0 ∨ 12 < (mo : Int)) := by omega
  have hdr : ¬ ((dd : Int) < 1 ∨ daysIn (mo : Int) (y : Int) < (dd : Int)) := by omega
  have hmn : ¬ ((mo : Int) < 0) := by omega
  have hdn : ¬ ((dd : Int) < 0) := by omega
  have hyw : ((((y : Int) / 1000) * 10 + (y : Int) / 100 % 10) * 10 + (y : Int) / 10 % 10) * 10
      + (y : Int) % 10 = y := by omega
  have hmw : (mo : Int) / 10 * 10 + (mo : Int) % 10 = mo := by omega
  have hdw : (dd : Int) / 10 * 10 + (dd : Int) % 10 = dd := by omega
  simp [Parse, layoutYMD, parseChunks, getnum, e1, e2, e3, e4, e5, skip, skipLoop,
    atoi_four _ _ _ _ e5 e6 e7 e8, v1, v2, v3, v4, v5, v6, v7, v8, hyw, hmw, hdw]
  have hmr2 : ¬ (mo = 0 ∨ 12 < mo) := by omega
  rw [if_neg hmr2]
  simp only [hmn, hdn, hdr, if_false]


/-- C8 (evaluation of the code at the failing inputs).  With the date pattern
`2006-01-02` configured, every valid date written in that pattern is accepted
by `time.Parse`, but the marker pattern of `scanFile` asks for `dd-dd-dddd`
whatever the configured pattern is: the comment `// TODO: stale:<date>` is not
matched and `scanFile` returns no annotation for it, for instance for
`// TODO: stale:2020-01-01`. -/
theorem configured_pattern_not_matched (c : Civil) (hc : c.valid) (path : String)
    (fs : FileSet) (decls : List Decl) (pos : Int) :
    (applyDefaults { noFlags with DateFormat := layoutYMD }).DateFormat = layoutYMD
    ∧ Parse layoutYMD (formatCivil layoutYMD c) = .ok (Date c.year c.month c.day 0 0 0 0)
    ∧ scanFile (applyDefaults { noFlags with DateFormat := layoutYMD }) path fs
          (.ok ⟨decls, [⟨[⟨pos, ['/', '/', ' ', 'T', 'O', 'D', 'O', ':', ' ', 's', 't', 'a', 'l',
            'e', ':'] ++ formatCivil layoutYMD c⟩]⟩]⟩)
        = .ok ⟨[], []⟩
    ∧ isoComment.Text = ['/', '/', ' ', 'T', 'O', 'D', 'O', ':', ' ', 's', 't', 'a', 'l', 'e', ':']
        ++ formatCivil layoutYMD ⟨2020, 1, 1⟩
    ∧ scanFile (applyDefaults { noFlags with DateFormat := layoutYMD }) "a.go" exampleFileSet
          (.ok ⟨[], [⟨[isoComment]⟩]⟩)
        = .ok ⟨[], []⟩ := by
  refine ⟨by decide, Parse_formatCivil_YMD c hc, ?_, by decide, by decide⟩
  rw [scanFile_ok]
  simp only [List.flatMap_cons, List.flatMap_nil, List.append_nil, List.filterMap_cons,
    List.filterMap_nil, scanComment, FindStringSubmatch_YMD c hc]

/-- Witness for C8: the date 1 January 2020. -/
theorem configured_pattern_not_matched_witness :
    Civil.valid ⟨2020, 1, 1⟩
    ∧ Parse layoutYMD (formatCivil layoutYMD ⟨2020, 1, 1⟩) = .ok (Date 2020 1 1 0 0 0 0)
    ∧ scanFile (applyDefaults { noFlags with DateFormat := layoutYMD }) "a.go" exampleFileSet
          (.ok ⟨[], [⟨[⟨50, ['/', '/', ' ', 'T', 'O', 'D', 'O', ':', ' ', 's', 't', 'a', 'l',
            'e', ':'] ++ formatCivil layoutYMD ⟨2020, 1, 1⟩⟩]⟩]⟩)
        = .ok ⟨[], []⟩ :=
  have hv : Civil.valid ⟨2020, 1, 1⟩ := by unfold Civil.valid; decide
  have h := configured_pattern_not_matched ⟨2020, 1, 1⟩ hv "a.go" exampleFileSet [] 50
  ⟨hv, h.2.1, h.2.2.1⟩

end Gostale
